import Mathlib

/-!
# Movie catalogue server (`server.js`): catalogue / asset consistency

A shallow embedding of the request handlers of `src/server.js`.

* JavaScript strings are `String`; every string operation of the source is
  defined on the list of characters.
* JavaScript numbers that the handlers compute come from `parseInt`,
  `JSON.parse` and `Date.now()`; they are modelled as `JSNum`: `NaN`, an
  infinity, or an integer.  `parseInt` and `JSON.parse` round the integer
  written by the digits to the nearest double (`roundToDouble`, `roundInt`).
* The file system is a map from absolute, normalised paths (given by their
  segments) to nodes.  The catalogue document is a file of that file system;
  its content is an array of entries, another JSON value, or no JSON text
  (`FileData`), and `readMovies` returns the array or the other value
  (`Loaded`).
* `JSON.stringify(movies, null, 2)` and `JSON.parse` are defined on the text
  of the catalogue; that reading back what was written gives the entries with
  `NaN` and the infinities replaced by `null` is a theorem
  (`jsonParse_jsonStringify`).
* Library functions (`parseInt`, `path.join`, `path.extname`,
  `Array.prototype.sort`, `fs.*Sync`, the JSON functions) are modelled after
  their documented behaviour on POSIX.
-/

namespace MovieSite

set_option maxRecDepth 100000

/-! ## JavaScript strings -/

/-- `s.startsWith(p)` -/
def startsWith (s p : String) : Bool :=
  p.data.isPrefixOf s.data

/-- `s.split(c)` on a list of characters: the pieces between occurrences of `c` -/
def splitOnChar (c : Char) : List Char → List (List Char)
  | [] => [[]]
  | x :: xs =>
    if x = c then [] :: splitOnChar c xs
    else
      match splitOnChar c xs with
      | [] => [[x]]
      | seg :: rest => (x :: seg) :: rest

/-- `s.split(c)` -/
def split (s : String) (c : Char) : List String :=
  (splitOnChar c s.data).map String.mk

/-- `ToString` of a value that may be `undefined` (as in a template literal) -/
def jsToString : Option String → String
  | some s => s
  | none => "undefined"

/-- `x || d` for a string-or-undefined `x`: the empty string is falsy -/
def orElse (x : Option String) (d : String) : String :=
  match x with
  | some s => if s = "" then d else s
  | none => d

/-- Truthiness of a string-or-undefined property value -/
def truthy : Option String → Bool
  | some s => s ≠ ""
  | none => false

/-! ## JavaScript numbers -/

/-- A number value: `NaN`, an integer, or an infinity (`inf true` is
`-Infinity`) -/
inductive JSNum where
  | nan
  | int (z : Int)
  | inf (negative : Bool)
  deriving DecidableEq, Repr

/-- `a - b`; of the difference of two integers only the sign is used, which
rounding to a double keeps -/
def JSNum.sub : JSNum → JSNum → JSNum
  | .int a, .int b => .int (a - b)
  | .inf s, .int _ => .inf s
  | .int _, .inf s => .inf (!s)
  | .inf s, .inf t => if s = t then .nan else .inf s
  | _, _ => .nan

/-- `a <= b`: false as soon as one side is `NaN` -/
def JSNum.le : JSNum → JSNum → Bool
  | .int a, .int b => a ≤ b
  | .inf s, .int _ => s
  | .int _, .inf s => !s
  | .inf s, .inf t => s || !t
  | _, _ => false

/-- `a === b` on numbers: `NaN` is not equal to itself -/
def JSNum.strictEq : JSNum → JSNum → Bool
  | .int a, .int b => a = b
  | .inf s, .inf t => s = t
  | _, _ => false

/-- Number of binary digits of `n` (`fuel` bounds it) -/
def bitLength : Nat → Nat → Nat
  | 0, _ => 0
  | fuel + 1, n => if n = 0 then 0 else bitLength fuel (n / 2) + 1

/-- The double nearest to the non-negative integer `n` (ties to the even
significand of 53 bits); `none` when that is `Infinity` -/
def roundToDouble (n : Nat) : Option Nat :=
  if n < 2 ^ 53 then some n
  else
    let e := bitLength n n - 53
    let q := n / 2 ^ e
    let r := n % 2 ^ e
    let half := 2 ^ (e - 1)
    let q1 := if half < r ∨ (r = half ∧ q % 2 = 1) then q + 1 else q
    if q1 * 2 ^ e < 2 ^ 1024 then some (q1 * 2 ^ e) else none

/-- The integer held by the double nearest to the integer `z`: the value that
`JSON.parse` reads from the digits of `z`.  Beyond the range of doubles, where
no integer is written by `JSON.stringify`, it is `z` -/
def roundInt (z : Int) : Int :=
  match roundToDouble z.natAbs with
  | some d => if z < 0 then -(d : Int) else d
  | none => z

/-- `StrWhiteSpaceChar` of ECMAScript: white space and line terminators -/
def isStrWhiteSpace (c : Char) : Bool :=
  let n := c.toNat
  (9 ≤ n && n ≤ 13) || n = 0x20 || n = 0xA0 || n = 0x1680 ||
  (0x2000 ≤ n && n ≤ 0x200A) || n = 0x2028 || n = 0x2029 || n = 0x202F ||
  n = 0x205F || n = 0x3000 || n = 0xFEFF

/-- Value of `c` as a digit of the given radix (10 or 16), if it is one -/
def digitValue (radix : Nat) (c : Char) : Option Nat :=
  let n := c.toNat
  if 48 ≤ n ∧ n ≤ 57 then some (n - 48)
  else if radix = 16 ∧ 97 ≤ n ∧ n ≤ 102 then some (n - 87)
  else if radix = 16 ∧ 65 ≤ n ∧ n ≤ 70 then some (n - 55)
  else none

/-- Reads the longest run of radix digits at the head of `cs`; `acc` holds the
value read so far and `seen` tells whether a digit was read -/
def readDigits (radix : Nat) : List Char → Nat → Bool → Option Nat
  | [], acc, seen => if seen then some acc else none
  | c :: cs, acc, seen =>
    match digitValue radix c with
    | some d => readDigits radix cs (acc * radix + d) true
    | none => if seen then some acc else none

/-- Steps 4 to 16 of `parseInt(string)` without a radix argument, on the
string already stripped of leading white space; the mathematical value of the
digits is rounded to the nearest double (beyond 20 significant digits
ECMAScript allows an engine to approximate) -/
def parseIntCore (cs : List Char) : JSNum :=
  let neg : Bool := match cs with
    | '-' :: _ => true
    | _ => false
  let body : List Char := match cs with
    | '-' :: r => r
    | '+' :: r => r
    | r => r
  let res : Option Nat := match body with
    | '0' :: 'x' :: r => readDigits 16 r 0 false
    | '0' :: 'X' :: r => readDigits 16 r 0 false
    | r => readDigits 10 r 0 false
  match res with
  | none => .nan
  | some v =>
    match roundToDouble v with
    | some d => if neg then .int (-(d : Int)) else .int d
    | none => .inf neg

/-- `parseInt(s)` -/
def parseInt (s : String) : JSNum :=
  parseIntCore (s.data.dropWhile isStrWhiteSpace)

/-- Decimal digits of `n`, most significant first (`fuel` bounds the length) -/
def decimalDigits : Nat → Nat → List Char
  | 0, _ => []
  | fuel + 1, n =>
    if n < 10 then [Nat.digitChar n]
    else decimalDigits fuel (n / 10) ++ [Nat.digitChar (n % 10)]

/-- `String(n)` for a non-negative integer below `1e21` -/
def numberToString (n : Nat) : String :=
  ⟨decimalDigits (n + 1) n⟩

/-! ## Paths (`path` module, POSIX) -/

/-- `path.extname(p)`: the text from the last `.` of the last path segment to
its end; empty when the segment has no `.`, when its only `.` is its first
character, or when the segment is `..` -/
def extnameChars (p : List Char) : List Char :=
  let rev := p.reverse.dropWhile (· = '/')
  let baseRev := rev.takeWhile (· ≠ '/')
  let extRev := baseRev.takeWhile (· ≠ '.')
  let base := baseRev.reverse
  if extRev.length = baseRev.length then []
  else if extRev.length + 1 = baseRev.length then []
  else if base = ['.', '.'] then []
  else '.' :: extRev.reverse

/-- `path.extname(p)` -/
def extname (p : String) : String :=
  ⟨extnameChars p.data⟩

/-- Segments of an absolute, normalised path (`/a/b` is `["a", "b"]`) together
with whether the path string ends with a separator -/
structure Path where
  segs : List String
  trailing : Bool
  deriving DecidableEq, Repr

/-- One step of `normalizeString` for an absolute path: `.` and empty segments
are dropped, `..` removes the last segment (and is dropped at the root) -/
def pushSegment (stack : List String) (seg : String) : List String :=
  if seg = "" ∨ seg = "." then stack
  else if seg = ".." then stack.dropLast
  else stack ++ [seg]

/-- `path.join(base, rel)` for an absolute normalised `base`:
`normalize(base + '/' + rel)` -/
def pathJoin (base : List String) (rel : String) : Path :=
  let segs := (split rel '/').foldl pushSegment base
  { segs := segs, trailing := decide (rel.data.getLast? = some '/') && decide (segs ≠ []) }

/-- The path string that `p` stands for -/
def Path.render (p : Path) : String :=
  "/" ++ "/".intercalate p.segs ++ (if p.trailing then "/" else "")

/-- Tells whether `p` lies inside the directory `d` (strictly below it) -/
def Path.inside (p : Path) (d : List String) : Bool :=
  d.isPrefixOf p.segs && decide (d.length < p.segs.length)

/-- Deployment: `__dirname`, an absolute normalised path given by its segments -/
structure Config where
  dirname : List String

/-- `uploadsDir = path.join(__dirname, 'uploads')` -/
def uploadsDir (cfg : Config) : List String :=
  (pathJoin cfg.dirname "uploads").segs

/-- `moviesDir = path.join(uploadsDir, 'movies')` -/
def moviesDir (cfg : Config) : List String :=
  (pathJoin (uploadsDir cfg) "movies").segs

/-- `imagesDir = path.join(uploadsDir, 'images')` -/
def imagesDir (cfg : Config) : List String :=
  (pathJoin (uploadsDir cfg) "images").segs

/-- `dataFile = path.join(__dirname, 'data', 'movies.json')` -/
def dataFile (cfg : Config) : List String :=
  (pathJoin (pathJoin cfg.dirname "data").segs "movies.json").segs

/-! ## Data model -/

/-- One installment of a series.  `number` is `none` for JSON `null` -/
structure Episode where
  number : Option JSNum
  url : Option String
  title : Option String
  deriving DecidableEq, Repr

/-- One catalogue entry; a property that is absent (or `undefined`) is `none` -/
structure Entry where
  id : Int
  title : Option String
  category : Option String
  type : Option String
  image : Option String
  videoUrl : Option String
  episodes : Option (List Episode)
  deriving DecidableEq, Repr

/-- `ToNumber` of a number-or-null property -/
def toNumber : Option JSNum → JSNum
  | some n => n
  | none => .int 0

/-- The episode that is read back from the text written for `ep`: `NaN` and
the infinities are written as `null`, the digits of an integer are read as
the nearest double; a property that is `undefined` is left out and read back
as `undefined` (see `parseEpisode_render`) -/
def Episode.jsonRoundTrip (ep : Episode) : Episode :=
  { ep with number := match ep.number with
      | some (.int z) => some (.int (roundInt z))
      | _ => none }

/-- The entry that is read back from the text written for `e` (see
`jsonParse_jsonStringify`) -/
def Entry.jsonRoundTrip (e : Entry) : Entry :=
  { e with id := roundInt e.id
           episodes := e.episodes.map (fun eps => eps.map Episode.jsonRoundTrip) }

/-! ## The catalogue document (`JSON.stringify`, `JSON.parse`) -/

/-- JSON white space -/
def isJsonWs (c : Char) : Bool :=
  c = ' ' || c = '\t' || c = '\n' || c = '\r'

/-- Drops leading JSON white space -/
def skipWs (cs : List Char) : List Char :=
  cs.dropWhile isJsonWs

/-- `QuoteJSONString` on one character: the quote, the backslash and control
characters are escaped -/
def escapeChar (c : Char) : List Char :=
  if c = '"' then ['\\', '"']
  else if c = '\\' then ['\\', '\\']
  else if c.toNat = 8 then ['\\', 'b']
  else if c.toNat = 12 then ['\\', 'f']
  else if c = '\n' then ['\\', 'n']
  else if c = '\r' then ['\\', 'r']
  else if c = '\t' then ['\\', 't']
  else if c.toNat < 32 then
    ['\\', 'u', '0', '0', Nat.digitChar (c.toNat / 16), Nat.digitChar (c.toNat % 16)]
  else [c]

/-- `QuoteJSONString(s)` -/
def quote (s : String) : List Char :=
  '"' :: (s.data.flatMap escapeChar ++ ['"'])

/-- The code unit written as four hexadecimal digits, if they are such -/
def hex4 (a b c d : Char) : Option Nat :=
  match digitValue 16 a, digitValue 16 b, digitValue 16 c, digitValue 16 d with
  | some x, some y, some z, some w => some (((x * 16 + y) * 16 + z) * 16 + w)
  | _, _, _, _ => none

/-- The character that the escape `\e` stands for (`\u` apart) -/
def unescape (e : Char) : Option Char :=
  if e = '"' then some '"'
  else if e = '\\' then some '\\'
  else if e = '/' then some '/'
  else if e = 'b' then some (Char.ofNat 8)
  else if e = 'f' then some (Char.ofNat 12)
  else if e = 'n' then some '\n'
  else if e = 'r' then some '\r'
  else if e = 't' then some '\t'
  else none

/-- Reads a JSON string after its opening quote, up to the closing quote.
Escapes of surrogate code units are not read -/
def parseStringBody : List Char → Option (List Char × List Char)
  | [] => none
  | c :: rest =>
    if c = '"' then some ([], rest)
    else if c = '\\' then
      match rest with
      | [] => none
      | e :: rest1 =>
        if e = 'u' then
          match rest1 with
          | a :: b :: c :: d :: rest2 =>
            match hex4 a b c d with
            | some n =>
              if 0xD800 ≤ n ∧ n ≤ 0xDFFF then none
              else (parseStringBody rest2).map (fun r => (Char.ofNat n :: r.1, r.2))
            | none => none
          | _ => none
        else
          match unescape e with
          | some x => (parseStringBody rest1).map (fun r => (x :: r.1, r.2))
          | none => none
    else if c.toNat < 32 then none
    else (parseStringBody rest).map (fun r => (c :: r.1, r.2))

/-- `Number::toString` for an integer below `1e21` in magnitude -/
def intToChars (z : Int) : List Char :=
  if z < 0 then '-' :: decimalDigits (z.natAbs + 1) z.natAbs
  else decimalDigits (z.natAbs + 1) z.natAbs

/-- Reads a JSON number that is an integer literal: an optional minus sign and
decimal digits without a leading zero, not followed by a fraction or an
exponent -/
def parseNumber (cs : List Char) : Option (Int × List Char) :=
  let neg : Bool := decide (cs.head? = some '-')
  let body : List Char := if neg then cs.tail else cs
  let ds := body.takeWhile Char.isDigit
  let rest := body.dropWhile Char.isDigit
  let leadingZero : Bool := decide (ds.head? = some '0') && decide (1 < ds.length)
  let continued : Bool :=
    decide (rest.head? = some '.') || decide (rest.head? = some 'e') ||
      decide (rest.head? = some 'E')
  if ds.isEmpty || leadingZero || continued then none
  else
    let v : Nat := ds.foldl (fun acc d => acc * 10 + (d.toNat - 48)) 0
    some (if neg then -(v : Int) else (v : Int), rest)

/-- A JSON value that is not an array or an object (booleans do not occur in
a catalogue) -/
inductive JScalar where
  | null
  | num (z : Int)
  | str (s : String)
  deriving DecidableEq, Repr

/-- Reads `null`, a string or an integer -/
def parseScalar (cs : List Char) : Option (JScalar × List Char) :=
  match cs with
  | [] => none
  | c :: rest =>
    if c = '"' then (parseStringBody rest).map (fun r => (.str ⟨r.1⟩, r.2))
    else if c = 'n' then
      match rest with
      | 'u' :: 'l' :: 'l' :: rest1 => some (.null, rest1)
      | _ => none
    else (parseNumber cs).map (fun r => (.num r.1, r.2))

/-- Reads the members of an object after its opening brace and white space,
up to the closing brace; `pv` reads a member value -/
def parseMembers {V : Type} (pv : List Char → Option (V × List Char)) :
    Nat → List Char → Option (List (String × V) × List Char)
  | 0, _ => none
  | fuel + 1, cs =>
    match cs with
    | '"' :: r =>
      match parseStringBody r with
      | some (k, r1) =>
        match skipWs r1 with
        | ':' :: r2 =>
          match pv (skipWs r2) with
          | some (v, r3) =>
            match skipWs r3 with
            | ',' :: r4 =>
              (parseMembers pv fuel (skipWs r4)).map (fun m => ((⟨k⟩, v) :: m.1, m.2))
            | '}' :: r4 => some ([(⟨k⟩, v)], r4)
            | _ => none
          | none => none
        | _ => none
      | none => none
    | _ => none

/-- Reads an object -/
def parseObject {V : Type} (pv : List Char → Option (V × List Char)) (fuel : Nat)
    (cs : List Char) : Option (List (String × V) × List Char) :=
  match cs with
  | '{' :: r =>
    match skipWs r with
    | '}' :: r1 => some ([], r1)
    | r1 => parseMembers pv fuel r1
  | _ => none

/-- Reads the elements of an array after its opening bracket and white space,
up to the closing bracket; `pe` reads an element -/
def parseElements {E : Type} (pe : List Char → Option (E × List Char)) :
    Nat → List Char → Option (List E × List Char)
  | 0, _ => none
  | fuel + 1, cs =>
    match pe cs with
    | some (e, r1) =>
      match skipWs r1 with
      | ',' :: r2 => (parseElements pe fuel (skipWs r2)).map (fun m => (e :: m.1, m.2))
      | ']' :: r2 => some ([e], r2)
      | _ => none
    | none => none

/-- Reads an array -/
def parseArray {E : Type} (pe : List Char → Option (E × List Char)) (fuel : Nat)
    (cs : List Char) : Option (List E × List Char) :=
  match cs with
  | '[' :: r =>
    match skipWs r with
    | ']' :: r1 => some ([], r1)
    | r1 => parseElements pe fuel r1
  | _ => none

/-- The value of the last member named `k` (a later duplicate wins) -/
def lookupLast {V : Type} (k : String) (ms : List (String × V)) : Option V :=
  (ms.reverse.find? (fun m => m.1 = k)).map (fun m => m.2)

/-- A property read as a string: absent is `undefined`; any other value than
a string is not one of a catalogue -/
def stringProp (k : String) (ms : List (String × JScalar)) : Option (Option String) :=
  match lookupLast k ms with
  | none => some none
  | some (.str s) => some (some s)
  | some _ => none

/-- The episode that an object with the given members is -/
def decodeEpisode (ms : List (String × JScalar)) : Option Episode :=
  if ms.all (fun m => m.1 = "number" || m.1 = "url" || m.1 = "title") then
    match lookupLast "number" ms, stringProp "url" ms, stringProp "title" ms with
    | some (.num z), some url, some title =>
      some { number := some (.int (roundInt z)), url := url, title := title }
    | some .null, some url, some title => some { number := none, url := url, title := title }
    | _, _, _ => none
  else none

/-- A member value of an entry: a scalar or the array of episodes -/
inductive JField where
  | scalar (s : JScalar)
  | episodes (eps : List Episode)
  deriving DecidableEq, Repr

/-- A property of an entry read as a string -/
def stringField (k : String) (ms : List (String × JField)) : Option (Option String) :=
  match lookupLast k ms with
  | none => some none
  | some (.scalar (.str s)) => some (some s)
  | some _ => none

/-- The `episodes` property of an entry -/
def episodesField (ms : List (String × JField)) : Option (Option (List Episode)) :=
  match lookupLast "episodes" ms with
  | none => some none
  | some (.episodes eps) => some (some eps)
  | some _ => none

/-- The entry that an object with the given members is -/
def decodeEntry (ms : List (String × JField)) : Option Entry :=
  if ms.all (fun m => m.1 = "id" || m.1 = "title" || m.1 = "category" || m.1 = "type" ||
      m.1 = "image" || m.1 = "videoUrl" || m.1 = "episodes") then
    match lookupLast "id" ms, stringField "title" ms, stringField "category" ms,
      stringField "type" ms, stringField "image" ms, stringField "videoUrl" ms,
      episodesField ms with
    | some (.scalar (.num z)), some title, some category, some type, some image,
      some videoUrl, some episodes =>
      some { id := roundInt z, title := title, category := category, type := type,
             image := image,
             videoUrl := videoUrl, episodes := episodes }
    | _, _, _, _, _, _, _ => none
  else none

/-- Reads an episode object -/
def parseEpisode (fuel : Nat) (cs : List Char) : Option (Episode × List Char) :=
  match parseObject parseScalar fuel cs with
  | some (ms, rest) => (decodeEpisode ms).map (fun ep => (ep, rest))
  | none => none

/-- Reads a member value of an entry -/
def parseField (fuel : Nat) (cs : List Char) : Option (JField × List Char) :=
  if cs.head? = some '[' then
    (parseArray (parseEpisode fuel) fuel cs).map (fun r => (.episodes r.1, r.2))
  else (parseScalar cs).map (fun r => (.scalar r.1, r.2))

/-- Reads an entry object -/
def parseEntry (fuel : Nat) (cs : List Char) : Option (Entry × List Char) :=
  match parseObject (parseField fuel) fuel cs with
  | some (ms, rest) => (decodeEntry ms).map (fun e => (e, rest))
  | none => none

/-- `JSON.parse(text)` for the text of a catalogue: an array of entries.
`none` stands for a raised `SyntaxError` -/
def jsonParse (text : List Char) : Option (List Entry) :=
  match parseArray (parseEntry (text.length + 1)) (text.length + 1) (skipWs text) with
  | some (movies, rest) => if (skipWs rest).isEmpty then some movies else none
  | none => none

/-- A line break followed by `n` spaces -/
def newline (n : Nat) : List Char :=
  '\n' :: List.replicate n ' '

/-- The texts of `items` with `sep` between them -/
def joinWith (sep : List Char) : List (List Char) → List Char
  | [] => []
  | [x] => x
  | x :: y :: rest => x ++ sep ++ joinWith sep (y :: rest)

/-- The text of an array whose elements are already written, with the given
indentation (`JSON.stringify` with a gap of two spaces) -/
def renderArray (indent : Nat) (items : List (List Char)) : List Char :=
  match items with
  | [] => ['[', ']']
  | _ =>
    '[' :: (newline (indent + 2) ++
      (joinWith (',' :: newline (indent + 2)) items ++ (newline indent ++ [']'])))

/-- The text of an object whose member values are already written -/
def renderObject (indent : Nat) (members : List (String × List Char)) : List Char :=
  match members with
  | [] => ['{', '}']
  | _ =>
    '{' :: (newline (indent + 2) ++
      (joinWith (',' :: newline (indent + 2))
        (members.map (fun m => quote m.1 ++ ':' :: ' ' :: m.2)) ++ (newline indent ++ ['}'])))

/-- The text of a scalar -/
def renderScalar : JScalar → List Char
  | .null => ['n', 'u', 'l', 'l']
  | .num z => intToChars z
  | .str s => quote s

/-- A member for a property that holds a string; none for `undefined` -/
def optionalMember {V : Type} (k : String) (f : String → V) : Option String →
    List (String × V)
  | some s => [(k, f s)]
  | none => []

/-- The members that `JSON.stringify` writes for an episode: `NaN` is written
as `null` and a property that is `undefined` is left out -/
def episodeMembers (ep : Episode) : List (String × JScalar) :=
  [("number", match ep.number with
    | some (.int z) => JScalar.num z
    | _ => JScalar.null)] ++
  optionalMember "url" JScalar.str ep.url ++ optionalMember "title" JScalar.str ep.title

/-- The text of an episode -/
def renderEpisode (indent : Nat) (ep : Episode) : List Char :=
  renderObject indent ((episodeMembers ep).map (fun m => (m.1, renderScalar m.2)))

/-- The text of the members of an entry, in the order in which the handler
creates the properties -/
def entryMembers (indent : Nat) (e : Entry) : List (String × List Char) :=
  [("id", intToChars e.id)] ++
  optionalMember "title" quote e.title ++ optionalMember "category" quote e.category ++
  optionalMember "type" quote e.type ++ optionalMember "image" quote e.image ++
  optionalMember "videoUrl" quote e.videoUrl ++
  (match e.episodes with
    | some eps => [("episodes", renderArray (indent + 2) (eps.map (renderEpisode (indent + 4))))]
    | none => [])

/-- The text of an entry -/
def renderEntry (indent : Nat) (e : Entry) : List Char :=
  renderObject indent (entryMembers indent e)

/-- `JSON.stringify(movies, null, 2)` -/
def jsonStringify (movies : List Entry) : List Char :=
  renderArray 0 (movies.map (renderEntry 2))

/-! ## File system -/

/-- Content of a regular file.

* `catalog movies` is a JSON text whose value is an array of entries: the text
  `JSON.stringify(movies, null, 2)`, held as the list it is written from.  An
  integer is written by its digits, and read back as the nearest double.
* `value isNull` is a JSON text whose value is not an array: `null` when
  `isNull` holds, else an object (such as `{}`), a string, a number or a
  boolean.
* `bytes b` is content that is not a JSON text (an uploaded image or video, an
  empty or truncated file); `b` is a label that tells such contents apart, not
  their text: the JSON text `{}` is `value false`.

A JSON text whose value is an array with an element that is not an entry
(such as `[null]`) is not a state of this model -/
inductive FileData where
  | catalog (movies : List Entry)
  | value (isNull : Bool)
  | bytes (b : String)
  deriving DecidableEq, Repr

/-- A node of the file system -/
inductive Node where
  | dir
  | file (data : FileData)
  deriving DecidableEq, Repr

/-- State of the machine: the file system, and whether `writeFileSync` of the
catalogue succeeds (it raises on a full disk or a read-only file) -/
structure World where
  fs : List String → Option Node
  writeOk : Bool

/-- `fs.existsSync(p)` -/
def existsSync (w : World) (p : Path) : Bool :=
  match w.fs p.segs with
  | none => false
  | some .dir => true
  | some (.file _) => !p.trailing

/-- `fs.unlinkSync(p)`: removes a regular file; raises on a directory and on
a missing file (the error message is returned) -/
def unlinkSync (w : World) (p : Path) : Except String World :=
  match w.fs p.segs with
  | none => .error ("ENOENT: no such file or directory, unlink \x27" ++ p.render ++ "\x27")
  | some .dir =>
    .error ("EISDIR: illegal operation on a directory, unlink \x27" ++ p.render ++ "\x27")
  | some (.file _) =>
    if p.trailing then .error ("ENOTDIR: not a directory, unlink \x27" ++ p.render ++ "\x27")
    else .ok { w with fs := fun q => if q = p.segs then none else w.fs q }

/-! ## Asset store (`multer.diskStorage`) -/

/-- The two buckets -/
inductive Bucket where
  | movies
  | images
  deriving DecidableEq, Repr

/-- `storage.destination`: the bucket handed to the callback, `none` when the
callback is not called -/
def destination (fieldname : String) : Option Bucket :=
  if fieldname = "video" ∨ startsWith fieldname "episode_" then some .movies
  else if fieldname = "image" then some .images
  else none

/-- `storage.filename`: `Date.now() + '-' + Math.round(Math.random() * 1E9) +
path.extname(file.originalname)`; `stamp` and `rand` are the two numbers -/
def uniqueName (stamp rand : Nat) (originalname : String) : String :=
  numberToString stamp ++ "-" ++ numberToString rand ++ extname originalname

/-- An element of `req.files`: a part that the storage engine has stored -/
structure UploadedFile where
  fieldname : String
  originalname : String
  stamp : Nat
  rand : Nat
  deriving DecidableEq, Repr

/-- `file.filename` -/
def UploadedFile.filename (f : UploadedFile) : String :=
  uniqueName f.stamp f.rand f.originalname

/-! ## Catalogue repository -/

/-- The value that `readMovies()` returns: an array of entries, or a value
that is not an array (`null` when `isNull` holds) -/
inductive Loaded where
  | array (movies : List Entry)
  | other (isNull : Bool)
  deriving DecidableEq, Repr

/-- The elements of the value, when it is an array -/
def Loaded.entries : Loaded → List Entry
  | .array movies => movies
  | .other _ => []

/-- `readMovies()`: `JSON.parse` of the text of the catalogue file, whatever
value that is; a missing file, a directory (`readFileSync` raises) and a text
that does not parse (`JSON.parse` raises) give the empty array -/
def readMovies (cfg : Config) (w : World) : Loaded :=
  match w.fs (dataFile cfg) with
  | some (.file (.catalog movies)) =>
    match jsonParse (jsonStringify movies) with
    | some parsed => .array parsed
    | none => .array []
  | some (.file (.value isNull)) => .other isNull
  | _ => .array []

/-- The message of the `TypeError` that `movies.method(...)` raises when
`movies` is not an array -/
def notArrayMessage (isNull : Bool) (method : String) : String :=
  if isNull then "Cannot read properties of null (reading \x27" ++ method ++ "\x27)"
  else "movies." ++ method ++ " is not a function"

/-- `saveMovies(movies)`: the boolean it returns and the state it leaves -/
def saveMovies (cfg : Config) (w : World) (movies : List Entry) : Bool × World :=
  match w.writeOk, w.fs (dataFile cfg) with
  | false, _ => (false, w)
  | true, some .dir => (false, w)
  | true, _ =>
    (true, { w with fs := fun q =>
      if q = dataFile cfg then some (.file (.catalog movies)) else w.fs q })

/-! ## `Array.prototype.sort` -/

/-- Places `x` in front of the first element it does not compare greater than -/
def insertBy {α : Type} (gt : α → α → Bool) (x : α) : List α → List α
  | [] => [x]
  | y :: ys => if gt x y then y :: insertBy gt x ys else x :: y :: ys

/-- A stable sort with `gt a b` standing for `comparefn(a, b) > 0`.  For a
consistent comparator every conforming `sort` returns this list.  For a
comparator that is not consistent (here: when a `number` is `NaN`) ECMAScript
leaves the order to the implementation; this list is then one permutation, and
an engine may return another -/
def jsSort {α : Type} (gt : α → α → Bool) : List α → List α
  | [] => []
  | x :: xs => insertBy gt x (jsSort gt xs)

/-- `v > 0` for the value `v` of the comparator; `NaN` counts as `+0` -/
def JSNum.isPositive : JSNum → Bool
  | .int z => 0 < z
  | .inf s => !s
  | .nan => false

/-! ## Item builder (`POST /api/movies`) -/

/-- Body of a JSON response -/
structure Response where
  status : Nat
  success : Bool
  item : Option Entry
  error : Option String
  deriving DecidableEq, Repr

/-- A multipart create request after `upload.any()`: `req.body` and
`req.files`.  (For a request that is not multipart `req.files` is `undefined`
and the handler answers with status 500 at `req.files.find`.) -/
structure Request where
  title : Option String
  category : Option String
  type : Option String
  files : List UploadedFile
  deriving DecidableEq, Repr

/-- The episode pushed for one element of `req.files`, if its field name
starts with `episode_` -/
def episodeOf (file : UploadedFile) : Option Episode :=
  if startsWith file.fieldname "episode_" then
    let episodeNum : Option String := (split file.fieldname '_')[1]?
    some { number := some (parseInt (jsToString episodeNum))
           url := some ("/uploads/movies/" ++ file.filename)
           title := some ("الحلقة " ++ jsToString episodeNum) }
  else none

/-- `(a, b) => a.number - b.number` is positive -/
def episodeGt (a b : Episode) : Bool :=
  ((toNumber a.number).sub (toNumber b.number)).isPositive

/-- The `newItem` object built by the handler; `now` is `Date.now()` -/
def newItem (req : Request) (now : Nat) : Entry :=
  let imageFile := req.files.find? (fun f => f.fieldname = "image")
  let item : Entry :=
    { id := now
      title := req.title
      category := req.category
      type := some (orElse req.type "movie")
      image := some (match imageFile with
        | some f => "/uploads/images/" ++ f.filename
        | none => "")
      videoUrl := none
      episodes := none }
  if req.type = some "series" then
    { item with episodes := some (jsSort episodeGt (req.files.filterMap episodeOf)) }
  else
    let videoFile := req.files.find? (fun f => f.fieldname = "video")
    { item with videoUrl := some (match videoFile with
        | some f => "/uploads/movies/" ++ f.filename
        | none => "") }

/-- The handler of `POST /api/movies`: its response and the state it leaves.
When `readMovies()` is not an array, `movies.push` raises and the `catch`
block answers with status 500 -/
def postMovies (cfg : Config) (w : World) (req : Request) (now : Nat) : Response × World :=
  let loaded := readMovies cfg w
  let item := newItem req now
  match loaded with
  | .array movies =>
    let saved := saveMovies cfg w (movies ++ [item])
    ({ status := 200, success := true, item := some item, error := none }, saved.2)
  | .other isNull =>
    ({ status := 500, success := false, item := none
       error := some (notArrayMessage isNull "push") }, w)

/-! ## Deletion reconciler (`DELETE /api/movies/:id`) -/

/-- Progress of the `try` block: the state, the paths handed to
`fs.unlinkSync` so far, and the message of the exception raised, if any.
Statements after a raised exception do not run -/
structure Run where
  world : World
  removed : List Path
  thrown : Option String

/-- The block `if (ref && ref.startsWith('/uploads')) { ... }` of the source -/
def removeRef (cfg : Config) (ref : Option String) (r : Run) : Run :=
  match r.thrown with
  | some _ => r
  | none =>
    if truthy ref && startsWith (jsToString ref) "/uploads" then
      let p := pathJoin cfg.dirname (jsToString ref)
      if existsSync r.world p then
        match unlinkSync r.world p with
        | .ok w => { world := w, removed := r.removed ++ [p], thrown := none }
        | .error msg => { r with removed := r.removed ++ [p], thrown := some msg }
      else r
    else r

/-- The asset removal of the handler for the entry found -/
def removeAssets (cfg : Config) (movie : Entry) (w : World) : Run :=
  let r := removeRef cfg movie.image { world := w, removed := [], thrown := none }
  match decide (movie.type = some "series"), movie.episodes with
  | true, some episodes => episodes.foldl (fun acc ep => removeRef cfg ep.url acc) r
  | _, _ => removeRef cfg movie.videoUrl r

/-- Result of the delete handler: response, state left, paths handed to
`fs.unlinkSync` -/
structure DeleteResult where
  response : Response
  world : World
  removed : List Path

/-- The handler of `DELETE /api/movies/:id`.  When `readMovies()` is not an
array, `movies.find` raises and the `catch` block answers with status 500 -/
def deleteMovie (cfg : Config) (w : World) (idParam : String) : DeleteResult :=
  let movieId := parseInt idParam
  match readMovies cfg w with
  | .array movies =>
    match movies.find? (fun m => (JSNum.int m.id).strictEq movieId) with
    | some movie =>
      let r := removeAssets cfg movie w
      match r.thrown with
      | some msg =>
        { response := { status := 500, success := false, item := none, error := some msg }
          world := r.world, removed := r.removed }
      | none =>
        let saved := saveMovies cfg r.world
          (movies.filter (fun m => !(JSNum.int m.id).strictEq movieId))
        { response := { status := 200, success := true, item := none, error := none }
          world := saved.2, removed := r.removed }
    | none =>
      { response := { status := 404, success := false, item := none,
                      error := some "المحتوى غير موجود" }
        world := w, removed := [] }
  | .other isNull =>
    { response := { status := 500, success := false, item := none,
                    error := some (notArrayMessage isNull "find") }
      world := w, removed := [] }

/-! ## Predicates of the specification -/

/-- Follows the spec's words: a role matches `episode_<n>` when it is
`episode_` followed by the decimal digits of a positive integer `n` -/
def matchesEpisodePattern (r : String) : Bool :=
  let d := r.data.drop 8
  startsWith r "episode_" && !d.isEmpty && d.all Char.isDigit && d.any (· ≠ '0')

/-- Sorted ascending by `number`: each adjacent pair satisfies
`a.number <= b.number` -/
def episodesSorted (eps : List Episode) : Prop :=
  List.Chain' (fun a b => (toNumber a.number).le (toNumber b.number) = true) eps

/-- The numbers of the episodes of an entry (empty without `episodes`) -/
def episodeNumbers (e : Entry) : List (Option JSNum) :=
  (e.episodes.getD []).map Episode.number

/-- An uploaded part with the given role; the other properties are fixed -/
def part (fieldname : String) : UploadedFile :=
  { fieldname := fieldname, originalname := "clip.mp4", stamp := 1700000000000, rand := 42 }

/-- An episode whose number is a number other than `NaN` -/
def Episode.numeric (ep : Episode) : Prop :=
  ∃ n : JSNum, ep.number = some n ∧ n ≠ .nan

/-- The six orders in which the roles `episode_3`, `episode_1`, `episode_2`
can arrive -/
def episodeOrders : List (List String) :=
  [["episode_3", "episode_1", "episode_2"], ["episode_3", "episode_2", "episode_1"],
   ["episode_1", "episode_3", "episode_2"], ["episode_1", "episode_2", "episode_3"],
   ["episode_2", "episode_3", "episode_1"], ["episode_2", "episode_1", "episode_3"]]

/-- A series request with the given parts -/
def seriesRequest (files : List UploadedFile) : Request :=
  { title := some "Show", category := some "Drama", type := some "series", files := files }

/-- The comparator of the sort on the `number` values alone -/
def numberGt (a b : Option JSNum) : Bool :=
  ((toNumber a).sub (toNumber b)).isPositive

/-- Follows the spec's words: the references of an entry are its `image`,
its `videoUrl` and each `episodes[*].url`; the empty string means none -/
def Entry.references (e : Entry) : List String :=
  (e.image.toList ++ e.videoUrl.toList ++
    (e.episodes.getD []).filterMap Episode.url).filter (fun s => s ≠ "")

/-- The state after `fs.unlinkSync(p)` removed the regular file at `p` -/
def World.without (w : World) (p : Path) : World :=
  { w with fs := fun q => if q = p.segs then none else w.fs q }

/-- Relates a state of the `try` block to a later one: the write flag is
kept, a node either is unchanged or was unlinked through a logged path, the
log only grows, and no exception is ever cleared -/
def Run.After (r r' : Run) : Prop :=
  r'.world.writeOk = r.world.writeOk ∧
  (∀ q, r'.world.fs q = r.world.fs q ∨
    (r'.world.fs q = none ∧ ∃ p ∈ r'.removed, p.segs = q)) ∧
  (∀ p ∈ r.removed, p ∈ r'.removed) ∧
  (r'.thrown = none → r.thrown = none)

/-- The path at which the handler resolves a reference -/
def resolve (cfg : Config) (ref : String) : Path :=
  pathJoin cfg.dirname ref

/-- The references that the delete handler looks at for the entry found: the
image, then the episode urls of a series with `episodes`, else the
`videoUrl`; only non-empty ones -/
def Entry.handled (movie : Entry) (ref : String) : Prop :=
  ref ≠ "" ∧
  (movie.image = some ref ∨
   (movie.type = some "series" ∧
      ∃ eps, movie.episodes = some eps ∧ ∃ ep ∈ eps, ep.url = some ref) ∨
   ((movie.type ≠ some "series" ∨ movie.episodes = none) ∧ movie.videoUrl = some ref))

/-! ## Example deployments -/

/-- A deployment in `/srv/app` -/
def demoCfg : Config :=
  { dirname := ["srv", "app"] }

/-- A file system holding the catalogue document `catalog` in
`/srv/app/data/movies.json` and a regular file at each path of `files` -/
def demoWorld (catalog : List Entry) (files : List (List String)) (writeOk : Bool) : World :=
  { fs := fun q =>
      if q = ["srv", "app", "data", "movies.json"] then some (.file (.catalog catalog))
      else if q ∈ files then some (.file (.bytes "media"))
      else none
    writeOk := writeOk }

/-- An entry of type movie with the given id, image and video references -/
def movieEntry (id : Int) (image videoUrl : String) : Entry :=
  { id := id, title := some "Film", category := some "Drama", type := some "movie",
    image := some image, videoUrl := some videoUrl, episodes := none }

/-- A catalogue entry that the builder did not produce: its references
leave the uploads tree -/
def foreignEntry : Entry :=
  movieEntry 7 "/uploads/../data/movies.json" "/uploadsX/f"

/-- The state holding `foreignEntry` and the file `/srv/app/uploadsX/f` -/
def foreignWorld : World :=
  demoWorld [foreignEntry] [["srv", "app", "uploadsX", "f"]] true

/-- A state whose catalogue holds one entry with id 1 and whose catalogue
file cannot be written -/
def readOnlyWorld : World :=
  demoWorld [movieEntry 1 "" ""] [] false

/-- A create request for a movie with one video part -/
def movieRequest : Request :=
  { title := some "Inception", category := some "Sci-Fi", type := none, files := [part "video"] }

/-- Two entries that share the id 1 -/
def twinCatalog : List Entry :=
  [movieEntry 1 "" "", { movieEntry 1 "" "" with title := some "Other" }]

/-- Two entries with different ids that reference the same image file -/
def sharedCatalog : List Entry :=
  [movieEntry 1 "/uploads/images/a.jpg" "", movieEntry 2 "/uploads/images/a.jpg" ""]

/-- The state holding `sharedCatalog` and the image file -/
def sharedWorld : World :=
  demoWorld sharedCatalog [["srv", "app", "uploads", "images", "a.jpg"]] true

/-- A catalogue of two movies with their own files, all present, writable -/
def twoMovies : World :=
  demoWorld
    [movieEntry 1 "/uploads/images/a.jpg" "/uploads/movies/a.mp4",
     movieEntry 2 "/uploads/images/b.jpg" "/uploads/movies/b.mp4"]
    [["srv", "app", "uploads", "images", "a.jpg"], ["srv", "app", "uploads", "movies", "a.mp4"],
     ["srv", "app", "uploads", "images", "b.jpg"], ["srv", "app", "uploads", "movies", "b.mp4"]]
    true

/-- Follows the spec's data model: the `number` of an episode is a positive
integer (a JavaScript number: the double nearest to it is the integer) -/
def Episode.Valid (ep : Episode) : Prop :=
  ∃ n : Int, 0 < n ∧ roundInt n = n ∧ ep.number = some (.int n)

/-- Follows the spec's data model: `id` is an integer (a JavaScript number),
`title` is present, `type` is `movie` or `series`, `videoUrl` is present only
for a movie, `episodes` only for a series, and the episodes are valid and
ordered ascending by `number` -/
def Entry.Valid (e : Entry) : Prop :=
  roundInt e.id = e.id ∧
  e.title.isSome = true ∧
  (e.type = some "movie" ∨ e.type = some "series") ∧
  (e.videoUrl.isSome = true → e.type = some "movie") ∧
  (e.episodes.isSome = true → e.type = some "series") ∧
  ∀ eps, e.episodes = some eps → (∀ ep ∈ eps, ep.Valid) ∧ episodesSorted eps

/-- A valid series entry with two episodes -/
def showEntry : Entry :=
  { id := 1700000000002, title := some "Show", category := some "Drama", type := some "series",
    image := some "", videoUrl := none,
    episodes := some
      [{ number := some (.int 1), url := some "/uploads/movies/1-1.mp4", title := some "1" },
       { number := some (.int 2), url := some "/uploads/movies/2-2.mp4", title := some "2" }] }

/-- A create request for a movie with an image part and a video part -/
def posterRequest : Request :=
  { title := some "Inception", category := some "Sci-Fi", type := some "movie",
    files := [part "image", part "video"] }

/-- The state after `posterRequest` was served at time 1700000000001: the
catalogue holds the entry built and both uploaded files are stored -/
def posterWorld : World :=
  demoWorld [newItem posterRequest 1700000000001]
    [["srv", "app", "uploads", "images", "1700000000000-42.mp4"],
     ["srv", "app", "uploads", "movies", "1700000000000-42.mp4"]] true

/-- A state whose catalogue holds one entry with id 1 whose image reference
resolves to a directory -/
def albumWorld : World :=
  { fs := fun q =>
      if q = ["srv", "app", "data", "movies.json"] then
        some (.file (.catalog [movieEntry 1 "/uploads/images/album" ""]))
      else if q = ["srv", "app", "uploads", "images", "album"] then some .dir
      else none
    writeOk := true }

/-- A state whose catalogue file holds the JSON text `{}` and nothing else -/
def braceWorld : World :=
  { fs := fun q =>
      if q = ["srv", "app", "data", "movies.json"] then some (.file (.value false))
      else none
    writeOk := true }

/-- The entry that the create handler builds for a series request with the
one part `episode_x`: its episode number is `NaN` -/
def pilotEntry : Entry :=
  newItem (seriesRequest [part "episode_x"]) 1700000000001

/-! ## Notions used to show that the text of a catalogue is read back -/

/-- What may follow a number in the text of a catalogue: not a digit, a
fraction or an exponent -/
def EndsNumber (rest : List Char) : Prop :=
  ∀ c, rest.head? = some c → c.isDigit = false ∧ c ≠ '.' ∧ c ≠ 'e' ∧ c ≠ 'E'

/-- What follows a value in the text that `JSON.stringify` writes: a comma or
a line break -/
def AfterValue (rest : List Char) : Prop :=
  rest.head? = some ',' ∨ rest.head? = some '\n'

/-- The text starts with a character that is not white space -/
def StartsSolid (text : List Char) : Prop :=
  ∃ c tail, text = c :: tail ∧ isJsonWs c = false

/-- A member as written and as read: its name, the text of its value and the
value read from that text -/
structure Written (V : Type) where
  name : String
  text : List Char
  value : V

/-- The value parser reads the text of `m` back -/
def Written.ReadBy {V : Type} (m : Written V) (pv : List Char → Option (V × List Char)) : Prop :=
  StartsSolid m.text ∧ ∀ r, AfterValue r → pv (m.text ++ r) = some (m.value, r)

/-- An element as written and as read -/
structure WrittenItem (E : Type) where
  text : List Char
  value : E

/-- The element parser reads the text of `m` back -/
def WrittenItem.ReadBy {E : Type} (m : WrittenItem E)
    (pe : List Char → Option (E × List Char)) : Prop :=
  StartsSolid m.text ∧ ∀ r, AfterValue r → pe (m.text ++ r) = some (m.value, r)

/-- The members of an episode as written and as read -/
def episodeWritten (ep : Episode) : List (Written JScalar) :=
  (episodeMembers ep).map (fun m => { name := m.1, text := renderScalar m.2, value := m.2 })

/-- A member of an entry that holds a string, as written and as read -/
def writtenString (k : String) : Option String → List (Written JField)
  | some s => [{ name := k, text := quote s, value := .scalar (.str s) }]
  | none => []

/-- The members of an entry as written and as read -/
def entryWritten (indent : Nat) (e : Entry) : List (Written JField) :=
  [{ name := "id", text := intToChars e.id, value := .scalar (.num e.id) }] ++
  writtenString "title" e.title ++ writtenString "category" e.category ++
  writtenString "type" e.type ++ writtenString "image" e.image ++
  writtenString "videoUrl" e.videoUrl ++
  (match e.episodes with
    | some eps =>
      [{ name := "episodes"
         text := renderArray (indent + 2) (eps.map (renderEpisode (indent + 4)))
         value := .episodes (eps.map Episode.jsonRoundTrip) }]
    | none => [])

/-! # Theorems -/

/-! ## Rounding to a double -/

theorem bitLength_zero (fuel : Nat) : bitLength fuel 0 = 0 := by
  cases fuel <;> simp [bitLength]

theorem bitLength_bounds : ∀ (fuel n : Nat), n ≤ fuel → 0 < n →
    0 < bitLength fuel n ∧ 2 ^ (bitLength fuel n - 1) ≤ n ∧ n < 2 ^ bitLength fuel n
  | 0, n, hle, hpos => by omega
  | fuel + 1, n, hle, hpos => by
    have hn : n ≠ 0 := by omega
    simp only [bitLength, if_neg hn]
    by_cases h2 : n / 2 = 0
    · have h1 : n = 1 := by omega
      subst h1
      simp [bitLength_zero]
    · obtain ⟨hb, hlo, hhi⟩ := bitLength_bounds fuel (n / 2) (by omega) (by omega)
      refine ⟨by omega, ?_, ?_⟩
      · have e : bitLength fuel (n / 2) + 1 - 1 = (bitLength fuel (n / 2) - 1) + 1 := by omega
        rw [e, pow_succ]
        omega
      · rw [pow_succ]
        omega

theorem bitLength_eq (n k : Nat) (hk : 0 < k) (hlo : 2 ^ (k - 1) ≤ n) (hhi : n < 2 ^ k) :
    bitLength n n = k := by
  have hpos : 0 < n := lt_of_lt_of_le (by positivity) hlo
  obtain ⟨hb, blo, bhi⟩ := bitLength_bounds n n le_rfl hpos
  have h1 : k - 1 < bitLength n n :=
    (Nat.pow_lt_pow_iff_right (by norm_num : 1 < 2)).1 (lt_of_le_of_lt hlo bhi)
  have h2 : bitLength n n - 1 < k :=
    (Nat.pow_lt_pow_iff_right (by norm_num : 1 < 2)).1 (lt_of_le_of_lt blo hhi)
  omega

theorem roundToDouble_idem (n m : Nat) (h : roundToDouble n = some m) :
    roundToDouble m = some m := by
  unfold roundToDouble at h
  by_cases hsmall : n < 2 ^ 53
  · rw [if_pos hsmall] at h
    cases h
    unfold roundToDouble
    rw [if_pos hsmall]
  · rw [if_neg hsmall] at h
    have hpos : 0 < n := lt_of_lt_of_le (by positivity) (not_lt.1 hsmall)
    obtain ⟨hb, blo, bhi⟩ := bitLength_bounds n n le_rfl hpos
    have hb54 : 53 < bitLength n n :=
      (Nat.pow_lt_pow_iff_right (by norm_num : 1 < 2)).1 (lt_of_le_of_lt (not_lt.1 hsmall) bhi)
    generalize hbe : bitLength n n = b at h hb blo bhi hb54
    obtain ⟨e, rfl⟩ : ∃ e, b = e + 54 := ⟨b - 54, by omega⟩
    have he : e + 54 - 53 = e + 1 := by omega
    simp only [he, Nat.add_sub_cancel] at h
    have hq_lo : 2 ^ 52 ≤ n / 2 ^ (e + 1) := by
      rw [Nat.le_div_iff_mul_le (by positivity), ← pow_add]
      have : 52 + (e + 1) = e + 54 - 1 := by omega
      rw [this]
      exact blo
    have hq_hi : n / 2 ^ (e + 1) < 2 ^ 53 := by
      rw [Nat.div_lt_iff_lt_mul (by positivity), ← pow_add]
      have : 53 + (e + 1) = e + 54 := by omega
      rw [this]
      exact bhi
    generalize hq1 : (if 2 ^ e < n % 2 ^ (e + 1) ∨
        (n % 2 ^ (e + 1) = 2 ^ e ∧ n / 2 ^ (e + 1) % 2 = 1)
      then n / 2 ^ (e + 1) + 1 else n / 2 ^ (e + 1)) = q1 at h
    have hq1_lo : 2 ^ 52 ≤ q1 := by
      rw [← hq1]; split <;> omega
    have hq1_hi : q1 ≤ 2 ^ 53 := by
      rw [← hq1]; split <;> omega
    split at h
    · rename_i hfin
      cases h
      have hpe : 0 < 2 ^ (e + 1) := by positivity
      have hbig : ¬ q1 * 2 ^ (e + 1) < 2 ^ 53 := by
        have : 2 ^ 52 * 2 ^ 1 ≤ q1 * 2 ^ (e + 1) :=
          Nat.mul_le_mul hq1_lo (Nat.pow_le_pow_right (by norm_num) (by omega))
        have h53 : (2 : Nat) ^ 52 * 2 ^ 1 = 2 ^ 53 := by norm_num
        omega
      unfold roundToDouble
      rw [if_neg hbig]
      by_cases htop : q1 = 2 ^ 53
      · subst htop
        have hm : (2 : Nat) ^ 53 * 2 ^ (e + 1) = 2 ^ 52 * 2 ^ (e + 2) := by
          rw [← pow_add, ← pow_add]
          congr 1
          omega
        have hbl : bitLength (2 ^ 53 * 2 ^ (e + 1)) (2 ^ 53 * 2 ^ (e + 1)) = e + 55 := by
          apply bitLength_eq _ _ (by omega)
          · rw [← pow_add]
            exact Nat.pow_le_pow_right (by norm_num) (by omega)
          · rw [← pow_add]
            exact Nat.pow_lt_pow_right (by norm_num) (by omega)
        rw [hbl]
        have he2 : e + 55 - 53 = e + 2 := by omega
        simp only [he2]
        rw [hm] at hfin ⊢
        have hdiv : 2 ^ 52 * 2 ^ (e + 2) / 2 ^ (e + 2) = 2 ^ 52 :=
          Nat.mul_div_cancel _ (by positivity)
        have hmod : 2 ^ 52 * 2 ^ (e + 2) % 2 ^ (e + 2) = 0 := Nat.mul_mod_left _ _
        have hhalf : 0 < 2 ^ (e + 2 - 1) := by positivity
        simp only [hdiv, hmod]
        have hc : ¬ (2 ^ (e + 2 - 1) < 0 ∨ 0 = 2 ^ (e + 2 - 1) ∧ 2 ^ 52 % 2 = 1) := by
          rintro (hc | ⟨hc, _⟩) <;> omega
        rw [if_neg hc, if_pos hfin]
      · have hlt : q1 < 2 ^ 53 := lt_of_le_of_ne hq1_hi htop
        have hbl : bitLength (q1 * 2 ^ (e + 1)) (q1 * 2 ^ (e + 1)) = e + 54 := by
          apply bitLength_eq _ _ (by omega)
          · have : e + 54 - 1 = 52 + (e + 1) := by omega
            rw [this, pow_add 2 52 (e + 1)]
            exact Nat.mul_le_mul_right _ hq1_lo
          · have : e + 54 = 53 + (e + 1) := by omega
            rw [this, pow_add 2 53 (e + 1)]
            exact Nat.mul_lt_mul_of_pos_right hlt hpe
        rw [hbl]
        simp only [he]
        have hdiv : q1 * 2 ^ (e + 1) / 2 ^ (e + 1) = q1 := Nat.mul_div_cancel _ hpe
        have hmod : q1 * 2 ^ (e + 1) % 2 ^ (e + 1) = 0 := Nat.mul_mod_left _ _
        have hhalf : 0 < 2 ^ (e + 1 - 1) := by positivity
        simp only [hdiv, hmod]
        have hc : ¬ (2 ^ (e + 1 - 1) < 0 ∨ 0 = 2 ^ (e + 1 - 1) ∧ q1 % 2 = 1) := by
          rintro (hc | ⟨hc, _⟩) <;> omega
        rw [if_neg hc, if_pos hfin]
    · cases h

theorem roundInt_of_double (z : Int) (h : roundToDouble z.natAbs = some z.natAbs) :
    roundInt z = z := by
  unfold roundInt
  rw [h]
  simp only
  split <;> omega

theorem roundInt_idem (z : Int) : roundInt (roundInt z) = roundInt z := by
  cases h : roundToDouble z.natAbs with
  | none =>
    have e : roundInt z = z := by
      unfold roundInt
      rw [h]
    rw [e, e]
  | some d =>
    have hd := roundToDouble_idem _ _ h
    have e : roundInt z = if z < 0 then -(d : Int) else d := by
      unfold roundInt
      rw [h]
    rw [e]
    apply roundInt_of_double
    split
    · rw [Int.natAbs_neg, Int.natAbs_ofNat]
      exact hd
    · rw [Int.natAbs_ofNat]
      exact hd

theorem roundInt_small (z : Int) (h : z.natAbs < 2 ^ 53) : roundInt z = z := by
  unfold roundInt roundToDouble
  rw [if_pos h]
  simp only
  split <;> omega

/-! ## The catalogue document: `JSON.parse` undoes `JSON.stringify` -/

theorem parseStringBody_cons (c : Char) (rest : List Char) :
    parseStringBody (c :: rest) =
      if c = '"' then some ([], rest)
      else if c = '\\' then
        match rest with
        | [] => none
        | e :: rest1 =>
          if e = 'u' then
            match rest1 with
            | a :: b :: c :: d :: rest2 =>
              match hex4 a b c d with
              | some n =>
                if 0xD800 ≤ n ∧ n ≤ 0xDFFF then none
                else (parseStringBody rest2).map (fun r => (Char.ofNat n :: r.1, r.2))
              | none => none
            | _ => none
          else
            match unescape e with
            | some x => (parseStringBody rest1).map (fun r => (x :: r.1, r.2))
            | none => none
      else if c.toNat < 32 then none
      else (parseStringBody rest).map (fun r => (c :: r.1, r.2)) := by
  rw [parseStringBody.eq_def]

theorem hex4_control : ∀ n : Nat, n < 32 →
    hex4 '0' '0' (Nat.digitChar (n / 16)) (Nat.digitChar (n % 16)) = some n := by
  decide

theorem parseStringBody_cons_escape (c : Char) (text : List Char) :
    parseStringBody (escapeChar c ++ text) =
      (parseStringBody text).map (fun r => (c :: r.1, r.2)) := by
  unfold escapeChar
  by_cases h1 : c = '"'
  · subst h1
    simp [parseStringBody_cons, unescape]
  rw [if_neg h1]
  by_cases h2 : c = '\\'
  · subst h2
    simp [parseStringBody_cons, unescape]
  rw [if_neg h2]
  by_cases h3 : c.toNat = 8
  · have hc : c = Char.ofNat 8 := by rw [← h3, Char.ofNat_toNat]
    subst hc
    simp [parseStringBody_cons, unescape]
  rw [if_neg h3]
  by_cases h4 : c.toNat = 12
  · have hc : c = Char.ofNat 12 := by rw [← h4, Char.ofNat_toNat]
    subst hc
    simp [parseStringBody_cons, unescape]
  rw [if_neg h4]
  by_cases h5 : c = '\n'
  · subst h5
    simp [parseStringBody_cons, unescape]
  rw [if_neg h5]
  by_cases h6 : c = '\r'
  · subst h6
    simp [parseStringBody_cons, unescape]
  rw [if_neg h6]
  by_cases h7 : c = '\t'
  · subst h7
    simp [parseStringBody_cons, unescape]
  rw [if_neg h7]
  by_cases h8 : c.toNat < 32
  · rw [if_pos h8]
    have hx := hex4_control c.toNat h8
    have hs : ¬ (0xD800 ≤ c.toNat ∧ c.toNat ≤ 0xDFFF) := by omega
    simp only [List.cons_append, List.nil_append]
    rw [parseStringBody_cons]
    simp [hx, hs]
  · rw [if_neg h8]
    simp [parseStringBody_cons, h1, h2, h8]

theorem parseStringBody_escaped (s rest : List Char) :
    parseStringBody (s.flatMap escapeChar ++ '"' :: rest) = some (s, rest) := by
  induction s with
  | nil => simp [parseStringBody_cons]
  | cons c s ih =>
    rw [List.flatMap_cons, List.append_assoc, parseStringBody_cons_escape, ih]
    rfl

theorem parse_quote (s : String) (rest : List Char) :
    parseStringBody ((quote s).tail ++ rest) = some (s.data, rest) := by
  simp [quote, parseStringBody_escaped]

theorem digitChar_isDigit : ∀ k : Nat, k < 10 →
    (Nat.digitChar k).isDigit = true ∧ (Nat.digitChar k).toNat - 48 = k ∧
    Nat.digitChar k ≠ '-' ∧ (0 < k → Nat.digitChar k ≠ '0') := by
  decide

theorem decimalDigits_forall (P : Char → Prop) (hP : ∀ k : Nat, k < 10 → P (Nat.digitChar k))
    (fuel n : Nat) : ∀ c ∈ decimalDigits fuel n, P c := by
  induction fuel generalizing n with
  | zero => simp [decimalDigits]
  | succ k ih =>
    unfold decimalDigits
    split
    · rename_i hlt
      simp only [List.mem_singleton, forall_eq]
      exact hP n hlt
    · intro c hc
      rcases List.mem_append.1 hc with h | h
      · exact ih _ c h
      · rw [List.mem_singleton.1 h]
        exact hP _ (Nat.mod_lt _ (by decide))

theorem decimalDigits_isDigit (fuel n : Nat) :
    ∀ c ∈ decimalDigits fuel n, c.isDigit = true :=
  decimalDigits_forall _ (fun k hk => (digitChar_isDigit k hk).1) fuel n

theorem digitChar_plain : ∀ k : Nat, k < 10 →
    Nat.digitChar k ≠ '"' ∧ Nat.digitChar k ≠ 'n' ∧ isJsonWs (Nat.digitChar k) = false ∧
    Nat.digitChar k ≠ '[' := by
  decide

theorem decimalDigits_ne_nil (fuel n : Nat) : decimalDigits (fuel + 1) n ≠ [] := by
  unfold decimalDigits
  split <;> simp

theorem decimalDigits_value (fuel n acc : Nat) (h : n < fuel) :
    (decimalDigits fuel n).foldl (fun acc d => acc * 10 + (d.toNat - 48)) acc
      = acc * 10 ^ (decimalDigits fuel n).length + n := by
  induction fuel generalizing n acc with
  | zero => omega
  | succ k ih =>
    unfold decimalDigits
    split
    · rename_i hlt
      simp only [List.foldl_cons, List.foldl_nil, List.length_singleton, pow_one]
      rw [(digitChar_isDigit n hlt).2.1]
    · rename_i hge
      have hk : n / 10 < k := by omega
      rw [List.foldl_append, ih _ _ hk]
      simp only [List.foldl_cons, List.foldl_nil, List.length_append, List.length_singleton]
      rw [(digitChar_isDigit _ (Nat.mod_lt n (by decide))).2.1, pow_succ]
      have := Nat.div_add_mod n 10
      nlinarith [this]

theorem decimalDigits_head (fuel n : Nat) (h : n < fuel) (hpos : 0 < n) :
    (decimalDigits fuel n).head? ≠ some '0' := by
  induction fuel generalizing n with
  | zero => omega
  | succ k ih =>
    unfold decimalDigits
    split
    · rename_i hlt
      simp only [List.head?_cons, ne_eq, Option.some.injEq]
      exact (digitChar_isDigit n hlt).2.2.2 hpos
    · rename_i hge
      have hk : n / 10 < k := by omega
      have hp : 0 < n / 10 := by omega
      have hne : decimalDigits k (n / 10) ≠ [] := by
        cases k with
        | zero => omega
        | succ j => exact decimalDigits_ne_nil j _
      rw [List.head?_append_of_ne_nil _ hne]
      exact ih _ hk hp

theorem digits_span (n : Nat) (rest : List Char) (hrest : EndsNumber rest) :
    (decimalDigits (n + 1) n ++ rest).takeWhile Char.isDigit = decimalDigits (n + 1) n ∧
    (decimalDigits (n + 1) n ++ rest).dropWhile Char.isDigit = rest := by
  have hd := decimalDigits_isDigit (n + 1) n
  have hr : rest.takeWhile Char.isDigit = [] ∧ rest.dropWhile Char.isDigit = rest := by
    cases rest with
    | nil => exact ⟨rfl, rfl⟩
    | cons c cs =>
      have := (hrest c rfl).1
      simp [List.takeWhile_cons, List.dropWhile_cons, this]
  rw [List.takeWhile_append_of_pos hd, List.dropWhile_append_of_pos hd, hr.1, hr.2]
  simp

theorem digits_no_leading_zero (n : Nat) :
    (decide ((decimalDigits (n + 1) n).head? = some '0') &&
      decide (1 < (decimalDigits (n + 1) n).length)) = false := by
  rcases Nat.eq_zero_or_pos n with h | h
  · subst h
    decide
  · have := decimalDigits_head (n + 1) n (by omega) h
    simp [this]

theorem parseNumber_digits (n : Nat) (rest : List Char) (hrest : EndsNumber rest) :
    parseNumber (decimalDigits (n + 1) n ++ rest) = some ((n : Int), rest) := by
  obtain ⟨ht, hdw⟩ := digits_span n rest hrest
  have hne := decimalDigits_ne_nil n n
  have hhead : (decimalDigits (n + 1) n ++ rest).head? ≠ some '-' := by
    rw [List.head?_append_of_ne_nil _ hne]
    intro hc
    have hmem := List.mem_of_mem_head? hc
    have := decimalDigits_isDigit _ _ _ hmem
    revert this
    decide
  have hcont : (decide (rest.head? = some '.') || decide (rest.head? = some 'e') ||
      decide (rest.head? = some 'E')) = false := by
    cases hh : rest.head? with
    | none => rfl
    | some c =>
      obtain ⟨_, h1, h2, h3⟩ := hrest c hh
      simp [h1, h2, h3]
  unfold parseNumber
  simp only [decide_eq_false hhead, Bool.false_eq_true, if_false, ht, hdw,
    digits_no_leading_zero, hcont, Bool.or_false]
  have he : (decimalDigits (n + 1) n).isEmpty = false := by
    cases hd : decimalDigits (n + 1) n with
    | nil => exact absurd hd hne
    | cons _ _ => rfl
  rw [he]
  simp only [Bool.false_eq_true, if_false]
  rw [decimalDigits_value _ _ _ (Nat.lt_succ_self n)]
  simp

theorem parseNumber_int (z : Int) (rest : List Char) (hrest : EndsNumber rest) :
    parseNumber (intToChars z ++ rest) = some (z, rest) := by
  unfold intToChars
  by_cases hz : z < 0
  · rw [if_pos hz]
    obtain ⟨ht, hdw⟩ := digits_span z.natAbs rest hrest
    have hne := decimalDigits_ne_nil z.natAbs z.natAbs
    have hcont : (decide (rest.head? = some '.') || decide (rest.head? = some 'e') ||
        decide (rest.head? = some 'E')) = false := by
      cases hh : rest.head? with
      | none => rfl
      | some c =>
        obtain ⟨_, h1, h2, h3⟩ := hrest c hh
        simp [h1, h2, h3]
    have he : (decimalDigits (z.natAbs + 1) z.natAbs).isEmpty = false := by
      cases hd : decimalDigits (z.natAbs + 1) z.natAbs with
      | nil => exact absurd hd hne
      | cons _ _ => rfl
    unfold parseNumber
    simp only [List.cons_append, List.head?_cons, decide_True, if_true, List.tail_cons, ht, hdw,
      digits_no_leading_zero, hcont, Bool.or_false, he, Bool.false_eq_true, if_false]
    rw [decimalDigits_value _ _ _ (Nat.lt_succ_self _)]
    simp only [zero_mul, zero_add, Option.some.injEq, Prod.mk.injEq, and_true]
    omega
  · rw [if_neg hz, parseNumber_digits _ _ hrest]
    simp only [Option.some.injEq, Prod.mk.injEq, and_true]
    omega

theorem afterValue_endsNumber (rest : List Char) (h : AfterValue rest) : EndsNumber rest := by
  intro c hc
  rcases h with h | h <;> rw [h] at hc <;> cases hc <;> decide

theorem skipWs_solid (text : List Char) (h : StartsSolid text) : skipWs text = text := by
  obtain ⟨c, tail, rfl, hc⟩ := h
  simp [skipWs, List.dropWhile_cons, hc]

theorem skipWs_newline (n : Nat) (text : List Char) (h : StartsSolid text) :
    skipWs (newline n ++ text) = text := by
  obtain ⟨c, tail, rfl, hc⟩ := h
  unfold skipWs newline
  rw [List.cons_append, List.dropWhile_cons]
  have h1 : isJsonWs '\n' = true := by decide
  rw [if_pos h1]
  have hsp : ∀ a ∈ List.replicate n ' ', isJsonWs a = true := by
    intro a ha
    rw [List.eq_of_mem_replicate ha]
    decide
  rw [List.dropWhile_append_of_pos hsp]
  simp [List.dropWhile_cons, hc]

theorem startsSolid_append (a b : List Char) (h : StartsSolid a) : StartsSolid (a ++ b) := by
  obtain ⟨c, tail, rfl, hc⟩ := h
  exact ⟨c, tail ++ b, rfl, hc⟩

theorem quote_solid (s : String) : StartsSolid (quote s) :=
  ⟨'"', _, rfl, by decide⟩

theorem intToChars_head (z : Int) :
    ∃ c tail, intToChars z = c :: tail ∧ c ≠ '"' ∧ c ≠ 'n' ∧ isJsonWs c = false ∧ c ≠ '[' := by
  unfold intToChars
  split
  · exact ⟨'-', _, rfl, by decide, by decide, by decide, by decide⟩
  · cases hd : decimalDigits (z.natAbs + 1) z.natAbs with
    | nil => exact absurd hd (decimalDigits_ne_nil _ _)
    | cons c tail =>
      exact ⟨c, tail, rfl,
        decimalDigits_forall
          (fun x => x ≠ '"' ∧ x ≠ 'n' ∧ isJsonWs x = false ∧ x ≠ '[')
          digitChar_plain (z.natAbs + 1) z.natAbs c (by rw [hd]; simp)⟩

theorem parseScalar_render (v : JScalar) (rest : List Char) (h : AfterValue rest) :
    parseScalar (renderScalar v ++ rest) = some (v, rest) := by
  cases v with
  | null => simp [renderScalar, parseScalar]
  | num z =>
    obtain ⟨c, tail, hz, h1, h2, _, _⟩ := intToChars_head z
    have hp := parseNumber_int z rest (afterValue_endsNumber rest h)
    simp only [renderScalar]
    rw [hz] at hp ⊢
    simp only [List.cons_append] at hp ⊢
    simp only [parseScalar, h1, h2, if_false, hp, Option.map_some']
  | str s =>
    have := parse_quote s rest
    simp only [quote, List.tail_cons] at this
    simp only [renderScalar, quote, List.cons_append, parseScalar, if_true, this,
      Option.map_some']

theorem renderScalar_solid (v : JScalar) : StartsSolid (renderScalar v) := by
  cases v with
  | null => exact ⟨'n', _, rfl, by decide⟩
  | num z =>
    obtain ⟨c, tail, hz, _, _, h3, _⟩ := intToChars_head z
    exact ⟨c, tail, hz, h3⟩
  | str s => exact quote_solid s

theorem afterValue_newline (k : Nat) (T : List Char) : AfterValue (newline k ++ T) :=
  Or.inr rfl

theorem afterValue_comma (T : List Char) : AfterValue (',' :: T) :=
  Or.inl rfl

theorem parseMembers_step {V : Type} (pv : List Char → Option (V × List Char))
    (f : Nat) (m : Written V) (hm : m.ReadBy pv) (R : List Char) (hR : AfterValue R) :
    parseMembers pv (f + 1) (quote m.name ++ (':' :: ' ' :: (m.text ++ R))) =
      match skipWs R with
      | ',' :: r4 =>
        (parseMembers pv f (skipWs r4)).map (fun x => ((m.name, m.value) :: x.1, x.2))
      | '}' :: r4 => some ([(m.name, m.value)], r4)
      | _ => none := by
  obtain ⟨hsolid, hread⟩ := hm
  have htext : quote m.name ++ (':' :: ' ' :: (m.text ++ R)) =
      '"' :: (m.name.data.flatMap escapeChar ++ '"' :: (':' :: ' ' :: (m.text ++ R))) := by
    simp [quote]
  have hcolon : skipWs (':' :: ' ' :: (m.text ++ R)) = ':' :: ' ' :: (m.text ++ R) :=
    skipWs_solid _ ⟨':', _, rfl, by decide⟩
  have hspace : skipWs (' ' :: (m.text ++ R)) = m.text ++ R := by
    have := skipWs_solid (m.text ++ R) (startsSolid_append _ _ hsolid)
    simp only [skipWs, List.dropWhile_cons] at this ⊢
    rw [if_pos (by decide)]
    exact this
  rw [htext, parseMembers]
  simp only [parseStringBody_escaped, hcolon, hspace, hread R hR]

theorem parseMembers_joined {V : Type} (pv : List Char → Option (V × List Char))
    (n k : Nat) (ms : List (Written V)) (hne : ms ≠ []) (rest : List Char) (fuel : Nat)
    (hfuel : ms.length ≤ fuel) (H : ∀ m ∈ ms, m.ReadBy pv) :
    parseMembers pv fuel
      (joinWith (',' :: newline n) (ms.map (fun m => quote m.name ++ (':' :: ' ' :: m.text))) ++
        (newline k ++ '}' :: rest))
      = some (ms.map (fun m => (m.name, m.value)), rest) := by
  induction ms generalizing fuel with
  | nil => exact absurd rfl hne
  | cons m tail ih =>
    cases fuel with
    | zero => simp at hfuel
    | succ f =>
      have hm := H m (List.mem_cons_self _ _)
      cases tail with
      | nil =>
        simp only [List.map_cons, List.map_nil, joinWith, List.append_assoc, List.cons_append]
        rw [parseMembers_step pv f m hm _ (afterValue_newline k _),
          skipWs_newline k _ ⟨'}', rest, rfl, by decide⟩]
        rfl
      | cons m2 tail2 =>
        have hlen : (m2 :: tail2).length ≤ f := by
          simp only [List.length_cons] at hfuel ⊢
          omega
        have ih2 := ih (by simp) f hlen (fun x hx => H x (List.mem_cons_of_mem _ hx))
        simp only [List.map_cons, joinWith, List.append_assoc, List.cons_append] at ih2 ⊢
        rw [parseMembers_step pv f m hm _ (afterValue_comma _),
          skipWs_solid (',' :: _) ⟨',', _, rfl, by decide⟩]
        simp only
        cases tail2 with
        | nil =>
          simp only [List.map_nil, joinWith, List.append_assoc, List.cons_append] at ih2 ⊢
          rw [skipWs_newline n _ (startsSolid_append _ _ (quote_solid _)), ih2]
          rfl
        | cons m3 tail3 =>
          simp only [List.map_cons, joinWith, List.append_assoc, List.cons_append] at ih2 ⊢
          rw [skipWs_newline n _ (startsSolid_append _ _ (quote_solid _)), ih2]
          rfl

theorem parseObject_render {V : Type} (pv : List Char → Option (V × List Char))
    (indent : Nat) (ms : List (Written V)) (rest : List Char) (fuel : Nat)
    (hfuel : ms.length ≤ fuel) (H : ∀ m ∈ ms, m.ReadBy pv) :
    parseObject pv fuel (renderObject indent (ms.map (fun m => (m.name, m.text))) ++ rest)
      = some (ms.map (fun m => (m.name, m.value)), rest) := by
  cases ms with
  | nil => simp [renderObject, parseObject, skipWs, isJsonWs]
  | cons m tail =>
    have hj := parseMembers_joined pv (indent + 2) indent (m :: tail) (by simp) rest fuel hfuel H
    have hsolid : StartsSolid
        (joinWith (',' :: newline (indent + 2))
          ((m :: tail).map (fun m => quote m.name ++ (':' :: ' ' :: m.text))) ++
            (newline indent ++ '}' :: rest)) := by
      cases tail with
      | nil =>
        simp only [List.map_cons, List.map_nil, joinWith, List.append_assoc]
        exact startsSolid_append _ _ (quote_solid _)
      | cons m2 tail2 =>
        simp only [List.map_cons, joinWith, List.append_assoc]
        exact startsSolid_append _ _ (quote_solid _)
    simp only [renderObject, List.map_cons, List.map_map, Function.comp_def, List.cons_append,
      List.append_assoc, parseObject, List.singleton_append, List.nil_append] at hj hsolid ⊢
    rw [skipWs_newline _ _ hsolid]
    obtain ⟨c, T, hc, hws⟩ := hsolid
    rw [hc] at hj ⊢
    have hne : c ≠ '}' := by
      cases tail with
      | nil =>
        simp only [quote, List.map_nil, joinWith, List.cons_append, List.cons.injEq] at hc
        rw [← hc.1]; decide
      | cons m2 tail2 =>
        simp only [quote, List.map_cons, joinWith, List.cons_append, List.cons.injEq] at hc
        rw [← hc.1]; decide
    split
    · rename_i heq
      simp only [List.cons.injEq] at heq
      exact absurd heq.1 hne
    · exact hj

theorem parseElements_step {E : Type} (pe : List Char → Option (E × List Char))
    (f : Nat) (m : WrittenItem E) (hm : m.ReadBy pe) (R : List Char) (hR : AfterValue R) :
    parseElements pe (f + 1) (m.text ++ R) =
      match skipWs R with
      | ',' :: r2 => (parseElements pe f (skipWs r2)).map (fun x => (m.value :: x.1, x.2))
      | ']' :: r2 => some ([m.value], r2)
      | _ => none := by
  rw [parseElements]
  simp only [hm.2 R hR]

theorem parseElements_joined {E : Type} (pe : List Char → Option (E × List Char))
    (n k : Nat) (ms : List (WrittenItem E)) (hne : ms ≠ []) (rest : List Char) (fuel : Nat)
    (hfuel : ms.length ≤ fuel) (H : ∀ m ∈ ms, m.ReadBy pe) :
    parseElements pe fuel
      (joinWith (',' :: newline n) (ms.map (fun m => m.text)) ++ (newline k ++ ']' :: rest))
      = some (ms.map (fun m => m.value), rest) := by
  induction ms generalizing fuel with
  | nil => exact absurd rfl hne
  | cons m tail ih =>
    cases fuel with
    | zero => simp at hfuel
    | succ f =>
      have hm := H m (List.mem_cons_self _ _)
      cases tail with
      | nil =>
        simp only [List.map_cons, List.map_nil, joinWith]
        rw [parseElements_step pe f m hm _ (afterValue_newline k _),
          skipWs_newline k _ ⟨']', rest, rfl, by decide⟩]
        rfl
      | cons m2 tail2 =>
        have hlen : (m2 :: tail2).length ≤ f := by
          simp only [List.length_cons] at hfuel ⊢
          omega
        have hm2 := H m2 (List.mem_cons_of_mem _ (List.mem_cons_self _ _))
        have ih2 := ih (by simp) f hlen (fun x hx => H x (List.mem_cons_of_mem _ hx))
        simp only [List.map_cons, joinWith, List.append_assoc, List.cons_append] at ih2 ⊢
        rw [parseElements_step pe f m hm _ (afterValue_comma _),
          skipWs_solid (',' :: _) ⟨',', _, rfl, by decide⟩]
        simp only
        cases tail2 with
        | nil =>
          simp only [List.map_nil, joinWith, List.append_assoc, List.cons_append] at ih2 ⊢
          rw [skipWs_newline n _ (startsSolid_append _ _ hm2.1), ih2]
          rfl
        | cons m3 tail3 =>
          simp only [List.map_cons, joinWith, List.append_assoc, List.cons_append] at ih2 ⊢
          rw [skipWs_newline n _ (startsSolid_append _ _ hm2.1), ih2]
          rfl

theorem parseArray_render {E : Type} (pe : List Char → Option (E × List Char))
    (indent : Nat) (ms : List (WrittenItem E)) (rest : List Char) (fuel : Nat)
    (hfuel : ms.length ≤ fuel) (H : ∀ m ∈ ms, m.ReadBy pe)
    (hopen : ∀ m ∈ ms, m.text.head? ≠ some ']') :
    parseArray pe fuel (renderArray indent (ms.map (fun m => m.text)) ++ rest)
      = some (ms.map (fun m => m.value), rest) := by
  cases ms with
  | nil => simp [renderArray, parseArray, skipWs, isJsonWs]
  | cons m tail =>
    have hj := parseElements_joined pe (indent + 2) indent (m :: tail) (by simp) rest fuel hfuel H
    have hm := H m (List.mem_cons_self _ _)
    have hhead : ∃ T, joinWith (',' :: newline (indent + 2))
          ((m :: tail).map (fun m => m.text)) ++ (newline indent ++ ']' :: rest)
        = m.text ++ T := by
      cases tail with
      | nil =>
        refine ⟨newline indent ++ ']' :: rest, ?_⟩
        simp only [List.map_cons, List.map_nil, joinWith]
      | cons m2 tail2 =>
        refine ⟨',' :: newline (indent + 2) ++
          (joinWith (',' :: newline (indent + 2)) (m2.text :: List.map (fun m => m.text) tail2) ++
            (newline indent ++ ']' :: rest)), ?_⟩
        simp only [List.map_cons, joinWith, List.append_assoc]
    obtain ⟨T, hT⟩ := hhead
    obtain ⟨c, U, hc, hws⟩ := hm.1
    have hne : c ≠ ']' := by
      have := hopen m (List.mem_cons_self _ _)
      rw [hc] at this
      simpa using this
    simp only [renderArray, List.map_cons, List.cons_append, List.append_assoc, parseArray,
      List.singleton_append, List.nil_append] at hj ⊢
    simp only [List.map_cons] at hT
    rw [hT] at hj ⊢
    rw [skipWs_newline _ _ (startsSolid_append _ _ hm.1)]
    rw [hc] at hj ⊢
    simp only [List.cons_append] at hj ⊢
    split
    · rename_i heq
      simp only [List.cons.injEq] at heq
      exact absurd heq.1 hne
    · exact hj

theorem episodeWritten_readBy (ep : Episode) : ∀ m ∈ episodeWritten ep, m.ReadBy parseScalar := by
  intro m hm
  simp only [episodeWritten, List.mem_map] at hm
  obtain ⟨x, _, rfl⟩ := hm
  exact ⟨renderScalar_solid _, fun r hr => parseScalar_render _ r hr⟩

theorem episodeMembers_length (ep : Episode) : (episodeMembers ep).length ≤ 3 := by
  rcases ep with ⟨n, u, t⟩
  cases u <;> cases t <;> simp [episodeMembers, optionalMember]

theorem decodeEpisode_members (ep : Episode) :
    decodeEpisode (episodeMembers ep) = some ep.jsonRoundTrip := by
  rcases ep with ⟨n, u, t⟩
  rcases n with _ | n
  · cases u <;> cases t <;> rfl
  · cases n <;> cases u <;> cases t <;> rfl

theorem parseEpisode_render (fuel indent : Nat) (hfuel : 3 ≤ fuel) (ep : Episode)
    (rest : List Char) :
    parseEpisode fuel (renderEpisode indent ep ++ rest) = some (ep.jsonRoundTrip, rest) := by
  have h := parseObject_render parseScalar indent (episodeWritten ep) rest fuel
    (by
      simp only [episodeWritten, List.length_map]
      exact le_trans (episodeMembers_length ep) hfuel)
    (episodeWritten_readBy ep)
  simp only [episodeWritten, List.map_map, Function.comp_def] at h
  simp only [parseEpisode, renderEpisode, h, List.map_id', decodeEpisode_members,
    Option.map_some']

theorem entryMembers_written (indent : Nat) (e : Entry) :
    entryMembers indent e = (entryWritten indent e).map (fun m => (m.name, m.text)) := by
  rcases e with ⟨i, t, c, ty, im, v, eps⟩
  cases t <;> cases c <;> cases ty <;> cases im <;> cases v <;> cases eps <;> rfl

theorem entryWritten_length (indent : Nat) (e : Entry) : (entryWritten indent e).length ≤ 7 := by
  rcases e with ⟨i, t, c, ty, im, v, eps⟩
  cases t <;> cases c <;> cases ty <;> cases im <;> cases v <;> cases eps <;>
    simp [entryWritten, writtenString]

theorem decodeEntry_written (indent : Nat) (e : Entry) :
    decodeEntry ((entryWritten indent e).map (fun m => (m.name, m.value)))
      = some e.jsonRoundTrip := by
  rcases e with ⟨i, t, c, ty, im, v, eps⟩
  cases t <;> cases c <;> cases ty <;> cases im <;> cases v <;> cases eps <;>
    simp [decodeEntry, entryWritten, writtenString, lookupLast, stringField, episodesField,
      Entry.jsonRoundTrip]

theorem parseField_scalar (fuel : Nat) (v : JScalar) (r : List Char) (hr : AfterValue r) :
    parseField fuel (renderScalar v ++ r) = some (JField.scalar v, r) := by
  have hhead : (renderScalar v ++ r).head? ≠ some '[' := by
    cases v with
    | null => simp [renderScalar]
    | num z =>
      obtain ⟨c, tail, hz, _, _, _, h4⟩ := intToChars_head z
      simp only [renderScalar, hz, List.cons_append, List.head?_cons, ne_eq, Option.some.injEq]
      exact h4
    | str s => simp [renderScalar, quote]
  unfold parseField
  rw [if_neg hhead, parseScalar_render v r hr]
  rfl

theorem renderObject_head (indent : Nat) (ms : List (String × List Char)) :
    ∃ T, renderObject indent ms = '{' :: T := by
  cases ms with
  | nil => exact ⟨_, rfl⟩
  | cons m tail => exact ⟨_, rfl⟩

theorem renderArray_head (indent : Nat) (items : List (List Char)) :
    ∃ T, renderArray indent items = '[' :: T := by
  cases items with
  | nil => exact ⟨_, rfl⟩
  | cons m tail => exact ⟨_, rfl⟩

theorem parseField_episodes (fuel indent : Nat) (eps : List Episode) (hfuel : 3 ≤ fuel)
    (hlen : eps.length ≤ fuel) (r : List Char) :
    parseField fuel (renderArray indent (eps.map (renderEpisode (indent + 2))) ++ r)
      = some (JField.episodes (eps.map Episode.jsonRoundTrip), r) := by
  obtain ⟨T, hT⟩ := renderArray_head indent (eps.map (renderEpisode (indent + 2)))
  have hhead : (renderArray indent (eps.map (renderEpisode (indent + 2))) ++ r).head?
      = some '[' := by
    rw [hT]; rfl
  have h := parseArray_render (parseEpisode fuel) indent
    (eps.map (fun ep => { text := renderEpisode (indent + 2) ep,
                          value := ep.jsonRoundTrip : WrittenItem Episode }))
    r fuel (by simpa using hlen)
    (by
      intro m hm
      simp only [List.mem_map] at hm
      obtain ⟨ep, _, rfl⟩ := hm
      obtain ⟨U, hU⟩ := renderObject_head (indent + 2)
        ((episodeMembers ep).map (fun m => (m.1, renderScalar m.2)))
      exact ⟨⟨'{', U, hU, by decide⟩, fun r' _ => parseEpisode_render fuel _ hfuel ep r'⟩)
    (by
      intro m hm
      simp only [List.mem_map] at hm
      obtain ⟨ep, _, rfl⟩ := hm
      obtain ⟨U, hU⟩ := renderObject_head (indent + 2)
        ((episodeMembers ep).map (fun m => (m.1, renderScalar m.2)))
      simp only [renderEpisode, hU, List.head?_cons, ne_eq, Option.some.injEq]
      decide)
  simp only [List.map_map, Function.comp_def] at h
  unfold parseField
  rw [if_pos hhead, h]
  rfl

theorem writtenString_readBy (fuel : Nat) (k : String) (x : Option String) :
    ∀ m ∈ writtenString k x, m.ReadBy (parseField fuel) := by
  intro m hm
  cases x with
  | none => cases hm
  | some s =>
    simp only [writtenString, List.mem_singleton] at hm
    subst hm
    exact ⟨quote_solid s, fun r hr => parseField_scalar fuel (.str s) r hr⟩

theorem entryWritten_readBy (fuel indent : Nat) (e : Entry) (hfuel : 3 ≤ fuel)
    (hlen : ∀ eps, e.episodes = some eps → eps.length ≤ fuel) :
    ∀ m ∈ entryWritten indent e, m.ReadBy (parseField fuel) := by
  intro m hm
  simp only [entryWritten, List.mem_append, List.mem_singleton] at hm
  rcases hm with (((((hm | hm) | hm) | hm) | hm) | hm) | hm
  · subst hm
    obtain ⟨c, tail, hz, _, _, h3, _⟩ := intToChars_head e.id
    exact ⟨⟨c, tail, hz, h3⟩, fun r hr => parseField_scalar fuel (.num e.id) r hr⟩
  · exact writtenString_readBy fuel _ _ m hm
  · exact writtenString_readBy fuel _ _ m hm
  · exact writtenString_readBy fuel _ _ m hm
  · exact writtenString_readBy fuel _ _ m hm
  · exact writtenString_readBy fuel _ _ m hm
  · cases he : e.episodes with
    | none => rw [he] at hm; cases hm
    | some eps =>
      rw [he] at hm
      simp only [List.mem_singleton] at hm
      subst hm
      obtain ⟨T, hT⟩ := renderArray_head (indent + 2) (eps.map (renderEpisode (indent + 4)))
      exact ⟨⟨'[', T, hT, by decide⟩,
        fun r _ => parseField_episodes fuel (indent + 2) eps hfuel (hlen eps he) r⟩

theorem parseEntry_render (fuel indent : Nat) (e : Entry) (hfuel : 7 ≤ fuel)
    (hlen : ∀ eps, e.episodes = some eps → eps.length ≤ fuel) (rest : List Char) :
    parseEntry fuel (renderEntry indent e ++ rest) = some (e.jsonRoundTrip, rest) := by
  have h := parseObject_render (parseField fuel) indent (entryWritten indent e) rest fuel
    (le_trans (entryWritten_length indent e) hfuel)
    (entryWritten_readBy fuel indent e (by omega) hlen)
  simp only [parseEntry, renderEntry, entryMembers_written, h, decodeEntry_written,
    Option.map_some']

theorem joinWith_length_mem (sep : List Char) (items : List (List Char)) :
    ∀ x ∈ items, x.length ≤ (joinWith sep items).length := by
  induction items with
  | nil => intro x hx; cases hx
  | cons y tail ih =>
    intro x hx
    cases tail with
    | nil =>
      simp only [List.mem_singleton] at hx
      subst hx
      simp [joinWith]
    | cons z tail2 =>
      simp only [joinWith, List.length_append]
      rcases List.mem_cons.1 hx with h | h
      · subst h; omega
      · have := ih x h
        omega

theorem joinWith_length_count (sep : List Char) (hsep : 0 < sep.length)
    (items : List (List Char)) : items.length ≤ (joinWith sep items).length + 1 := by
  induction items with
  | nil => simp
  | cons y tail ih =>
    cases tail with
    | nil => simp [joinWith]
    | cons z tail2 =>
      simp only [joinWith, List.length_append, List.length_cons] at ih ⊢
      omega

theorem renderArray_length (indent : Nat) (items : List (List Char)) :
    items.length ≤ (renderArray indent items).length ∧
    ∀ x ∈ items, x.length + 2 ≤ (renderArray indent items).length := by
  cases items with
  | nil => simp
  | cons y tail =>
    have h1 := joinWith_length_count (',' :: newline (indent + 2)) (by simp) (y :: tail)
    have h2 := joinWith_length_mem (',' :: newline (indent + 2)) (y :: tail)
    simp only [renderArray, List.length_cons, List.length_append, List.length_nil, newline,
      List.length_replicate] at h1 h2 ⊢
    constructor
    · omega
    · intro x hx
      have := h2 x hx
      omega

theorem renderObject_length (indent : Nat) (ms : List (String × List Char)) :
    ∀ m ∈ ms, (quote m.1).length + m.2.length + 4 ≤ (renderObject indent ms).length := by
  intro m hm
  cases ms with
  | nil => cases hm
  | cons y tail =>
    have h2 := joinWith_length_mem (',' :: newline (indent + 2))
      ((y :: tail).map (fun m => quote m.1 ++ ':' :: ' ' :: m.2))
      (quote m.1 ++ ':' :: ' ' :: m.2) (List.mem_map_of_mem _ hm)
    simp only [renderObject, List.length_cons, List.length_append, List.length_nil, newline,
      List.length_replicate] at h2 ⊢
    omega

theorem renderEntry_length (indent : Nat) (e : Entry) :
    7 ≤ (renderEntry indent e).length ∧
    ∀ eps, e.episodes = some eps → eps.length ≤ (renderEntry indent e).length := by
  constructor
  · have h := renderObject_length indent (entryMembers indent e) ("id", intToChars e.id)
      (by simp [entryMembers])
    have hq : (quote "id").length = 4 := by decide
    simp only [hq] at h
    unfold renderEntry
    omega
  · intro eps he
    have h := renderObject_length indent (entryMembers indent e)
      ("episodes", renderArray (indent + 2) (eps.map (renderEpisode (indent + 4))))
      (by simp [entryMembers, he])
    have h2 := (renderArray_length (indent + 2) (eps.map (renderEpisode (indent + 4)))).1
    simp only [List.length_map] at h2
    unfold renderEntry
    simp only at h
    omega

/-- Reading back what `JSON.stringify(movies, null, 2)` wrote yields the
entries with `NaN` replaced by `null` -/
theorem jsonParse_jsonStringify (movies : List Entry) :
    jsonParse (jsonStringify movies) = some (movies.map Entry.jsonRoundTrip) := by
  obtain ⟨T, hT⟩ := renderArray_head 0 (movies.map (renderEntry 2))
  have hlen := renderArray_length 0 (movies.map (renderEntry 2))
  have hsolid : skipWs (jsonStringify movies) = jsonStringify movies :=
    skipWs_solid _ ⟨'[', T, hT, by decide⟩
  have h := parseArray_render (parseEntry ((jsonStringify movies).length + 1)) 0
    (movies.map (fun e => { text := renderEntry 2 e, value := e.jsonRoundTrip :
      WrittenItem Entry }))
    [] ((jsonStringify movies).length + 1)
    (by
      have := hlen.1
      simp only [List.length_map] at this ⊢
      unfold jsonStringify
      omega)
    (by
      intro m hm
      simp only [List.mem_map] at hm
      obtain ⟨e, he, rfl⟩ := hm
      obtain ⟨U, hU⟩ := renderObject_head 2 (entryMembers 2 e)
      have hx := hlen.2 (renderEntry 2 e) (List.mem_map_of_mem _ he)
      have hl := renderEntry_length 2 e
      refine ⟨⟨'{', U, hU, by decide⟩, fun r _ => parseEntry_render _ 2 e ?_ ?_ r⟩
      · unfold jsonStringify
        omega
      · intro eps heps
        have := hl.2 eps heps
        unfold jsonStringify
        omega)
    (by
      intro m hm
      simp only [List.mem_map] at hm
      obtain ⟨e, _, rfl⟩ := hm
      obtain ⟨U, hU⟩ := renderObject_head 2 (entryMembers 2 e)
      simp only [renderEntry, hU, List.head?_cons, ne_eq, Option.some.injEq]
      decide)
  simp only [List.map_map, Function.comp_def, List.append_nil] at h
  unfold jsonParse
  rw [hsolid]
  unfold jsonStringify at h ⊢
  rw [h]
  rfl

/-! ## Sorting -/

theorem mem_insertBy {α : Type} (gt : α → α → Bool) (x y : α) (l : List α) :
    y ∈ insertBy gt x l ↔ y = x ∨ y ∈ l := by
  induction l with
  | nil => simp [insertBy]
  | cons z zs ih =>
    unfold insertBy
    split
    · simp only [List.mem_cons, ih]
      tauto
    · simp only [List.mem_cons]

theorem mem_jsSort {α : Type} (gt : α → α → Bool) (y : α) (l : List α) :
    y ∈ jsSort gt l ↔ y ∈ l := by
  induction l with
  | nil => simp [jsSort]
  | cons z zs ih => simp [jsSort, mem_insertBy, ih]

theorem episodeGt_false_le {a b : Episode} (ha : a.numeric) (hb : b.numeric)
    (h : episodeGt a b = false) : (toNumber a.number).le (toNumber b.number) = true := by
  obtain ⟨x, hx, hxn⟩ := ha
  obtain ⟨y, hy, hyn⟩ := hb
  simp only [episodeGt, hx, hy, toNumber] at h ⊢
  cases x with
  | nan => exact absurd rfl hxn
  | int u =>
    cases y with
    | nan => exact absurd rfl hyn
    | int v =>
      simp only [JSNum.sub, JSNum.isPositive, decide_eq_false_iff_not, not_lt] at h
      simp only [JSNum.le, decide_eq_true_eq]
      omega
    | inf t => cases t <;> simp_all [JSNum.sub, JSNum.isPositive, JSNum.le]
  | inf s =>
    cases y with
    | nan => exact absurd rfl hyn
    | int v => cases s <;> simp_all [JSNum.sub, JSNum.isPositive, JSNum.le]
    | inf t => cases s <;> cases t <;> simp_all [JSNum.sub, JSNum.isPositive, JSNum.le]

theorem episodeGt_true_le {a b : Episode} (ha : a.numeric) (hb : b.numeric)
    (h : episodeGt a b = true) : (toNumber b.number).le (toNumber a.number) = true := by
  obtain ⟨x, hx, hxn⟩ := ha
  obtain ⟨y, hy, hyn⟩ := hb
  simp only [episodeGt, hx, hy, toNumber] at h ⊢
  cases x with
  | nan => exact absurd rfl hxn
  | int u =>
    cases y with
    | nan => exact absurd rfl hyn
    | int v =>
      simp only [JSNum.sub, JSNum.isPositive, decide_eq_true_eq] at h
      simp only [JSNum.le, decide_eq_true_eq]
      omega
    | inf t => cases t <;> simp_all [JSNum.sub, JSNum.isPositive, JSNum.le]
  | inf s =>
    cases y with
    | nan => exact absurd rfl hyn
    | int v => cases s <;> simp_all [JSNum.sub, JSNum.isPositive, JSNum.le]
    | inf t => cases s <;> cases t <;> simp_all [JSNum.sub, JSNum.isPositive, JSNum.le]

theorem insertBy_sorted (x : Episode) (l : List Episode) (hx : x.numeric)
    (hl : ∀ e ∈ l, e.numeric) (hs : episodesSorted l) :
    episodesSorted (insertBy episodeGt x l) := by
  induction l with
  | nil => simp [insertBy, episodesSorted]
  | cons y ys ih =>
    have hy : y.numeric := hl y (List.mem_cons_self _ _)
    have hys : ∀ e ∈ ys, e.numeric := fun e he => hl e (List.mem_cons_of_mem _ he)
    unfold insertBy
    cases hgt : episodeGt x y with
    | false =>
      simp only [Bool.false_eq_true, if_false]
      exact List.Chain'.cons (episodeGt_false_le hx hy hgt) hs
    | true =>
      simp only [if_true]
      have hs' : episodesSorted ys := List.Chain'.tail hs
      have ih' := ih hys hs'
      unfold episodesSorted at *
      rw [List.chain'_cons'] at hs ⊢
      refine ⟨?_, ih'⟩
      intro z hz
      cases ys with
      | nil =>
        simp only [insertBy, List.head?_cons, Option.mem_def, Option.some.injEq] at hz
        subst hz
        exact episodeGt_true_le hx hy hgt
      | cons w ws =>
        unfold insertBy at hz
        split at hz
        · simp only [List.head?_cons, Option.mem_def, Option.some.injEq] at hz
          subst hz
          exact hs.1 _ (by simp)
        · simp only [List.head?_cons, Option.mem_def, Option.some.injEq] at hz
          subst hz
          exact episodeGt_true_le hx hy hgt

theorem jsSort_sorted (l : List Episode) (hl : ∀ e ∈ l, e.numeric) :
    episodesSorted (jsSort episodeGt l) := by
  induction l with
  | nil => simp [jsSort, episodesSorted]
  | cons y ys ih =>
    have hys : ∀ e ∈ ys, e.numeric := fun e he => hl e (List.mem_cons_of_mem _ he)
    unfold jsSort
    refine insertBy_sorted y _ (hl y (List.mem_cons_self _ _)) ?_ (ih hys)
    intro e he
    exact hys e ((mem_jsSort _ _ _).1 he)

/-! ## Asset store -/

/-- C7 (as stated, refuted): the roles `episode_abc` and `episode_` do not
match the pattern `episode_<n>` and are not `video`, yet the storage
destination function yields the video bucket for them -/
theorem destination_episode_abc_is_video_bucket :
    destination "episode_abc" = some Bucket.movies ∧
    destination "episode_" = some Bucket.movies ∧
    matchesEpisodePattern "episode_abc" = false ∧
    matchesEpisodePattern "episode_" = false ∧
    "episode_abc" ≠ "video" ∧ "episode_" ≠ "video" := by
  decide

/-- C7 (amended): the storage destination function yields the video bucket
exactly for the role `video` and the roles that start with `episode_`, the
image bucket exactly for the role `image`, and no destination for every
other role -/
theorem destination_by_role (r : String) :
    (destination r = some Bucket.movies ↔ (r = "video" ∨ startsWith r "episode_" = true)) ∧
    (destination r = some Bucket.images ↔ r = "image") ∧
    (destination r = none ↔
      (r ≠ "video" ∧ startsWith r "episode_" = false ∧ r ≠ "image")) := by
  unfold destination
  by_cases h1 : r = "video" ∨ startsWith r "episode_" = true
  · rw [if_pos h1]
    refine ⟨by simp [h1], ?_, ?_⟩
    · constructor
      · intro h; cases h
      · intro h
        subst h
        revert h1
        decide
    · constructor
      · intro h; cases h
      · rintro ⟨h2, h3, _⟩
        rcases h1 with h1 | h1
        · exact absurd h1 h2
        · rw [h3] at h1; cases h1
  · rw [if_neg h1]
    have h2 : r ≠ "video" := fun h => h1 (Or.inl h)
    have h3 : startsWith r "episode_" = false := by
      cases h : startsWith r "episode_"
      · rfl
      · exact absurd (Or.inr h) h1
    by_cases h4 : r = "image"
    · rw [if_pos h4]
      refine ⟨?_, by simp [h4], ?_⟩
      · constructor
        · intro h; cases h
        · intro h; exact absurd h h1
      · constructor
        · intro h; cases h
        · rintro ⟨_, _, h5⟩; exact absurd h4 h5
    · rw [if_neg h4]
      refine ⟨?_, ?_, ?_⟩
      · constructor
        · intro h; cases h
        · intro h; exact absurd h h1
      · constructor
        · intro h; cases h
        · intro h; exact absurd h h4
      · exact ⟨fun _ => ⟨h2, h3, h4⟩, fun _ => rfl⟩

/-- Witness of C7 (amended): the three clauses at `episode_7`, `image` and
`poster` -/
theorem destination_by_role_witness :
    destination "episode_7" = some Bucket.movies ∧
    destination "image" = some Bucket.images ∧
    destination "poster" = none :=
  ⟨(destination_by_role "episode_7").1.2 (Or.inr (by decide)),
   (destination_by_role "image").2.1.2 rfl,
   (destination_by_role "poster").2.2.2 (by decide)⟩

/-! ## Item builder -/

/-- C2: for every create request, the entry built has no `videoUrl` when
the `type` field is `series`, and no `episodes` when the `type` field is
`movie` or unset -/
theorem newItem_type_exclusive (req : Request) (now : Nat) :
    (req.type = some "series" → (newItem req now).videoUrl = none) ∧
    ((req.type = some "movie" ∨ req.type = none) → (newItem req now).episodes = none) := by
  constructor
  · intro h
    simp [newItem, h]
  · intro h
    have hne : req.type ≠ some "series" := by
      rcases h with h | h <;> rw [h] <;> decide
    simp [newItem, hne]

/-- Witness of C2: a series request, a movie request and a request without
`type` -/
theorem newItem_type_exclusive_witness :
    (newItem { title := some "Show", category := none, type := some "series",
               files := [part "episode_1"] } 5).videoUrl = none ∧
    (newItem { title := some "Film", category := none, type := some "movie",
               files := [part "video"] } 6).episodes = none ∧
    (newItem { title := some "Film", category := none, type := none,
               files := [part "video"] } 7).episodes = none :=
  ⟨(newItem_type_exclusive _ 5).1 rfl, (newItem_type_exclusive _ 6).2 (Or.inl rfl),
   (newItem_type_exclusive _ 7).2 (Or.inr rfl)⟩

theorem episodeOf_numeric (f : UploadedFile) (ep : Episode)
    (hnum : startsWith f.fieldname "episode_" = true →
      parseInt (jsToString ((split f.fieldname '_')[1]?)) ≠ JSNum.nan)
    (h : episodeOf f = some ep) : ep.numeric := by
  unfold episodeOf at h
  split at h
  · rename_i hs
    have hn := hnum hs
    simp only [Option.some.injEq] at h
    subst h
    exact ⟨_, rfl, hn⟩
  · cases h

theorem episodeOf_number (f : UploadedFile) (name : String) (n : JSNum)
    (hname : f.fieldname = name) (hs : startsWith name "episode_" = true)
    (hn : parseInt (jsToString ((split name '_')[1]?)) = n) :
    (episodeOf f).map Episode.number = some (some n) := by
  subst hname
  unfold episodeOf
  rw [if_pos hs]
  simp only [Option.map_some', hn]

theorem episodesSorted_numbers (eps : List Episode) (h : episodesSorted eps) :
    List.Chain' (fun a b => (toNumber a).le (toNumber b) = true) (eps.map Episode.number) :=
  (List.chain'_map Episode.number).2 h

/-- C1 (as stated, refuted): a series request with the parts `episode_x`
and `episode_1` yields an `episodes` list that is not sorted ascending by
`number`: its first number is `NaN`, and `NaN <= 1` is false -/
theorem series_episodes_not_sorted_with_nan :
    (seriesRequest [part "episode_x", part "episode_1"]).type = some "series" ∧
    episodeNumbers (newItem (seriesRequest [part "episode_x", part "episode_1"]) 1700000000001)
      = [some JSNum.nan, some (JSNum.int 1)] ∧
    ¬ episodesSorted
      ((newItem (seriesRequest [part "episode_x", part "episode_1"]) 1700000000001).episodes.getD
        []) := by
  refine ⟨rfl, by decide, ?_⟩
  intro h
  have hc := episodesSorted_numbers _ h
  have hn : List.map Episode.number
      ((newItem (seriesRequest [part "episode_x", part "episode_1"]) 1700000000001).episodes.getD
        []) = [some JSNum.nan, some (JSNum.int 1)] := by decide
  rw [hn] at hc
  simp [toNumber, JSNum.le] at hc

theorem map_insertBy {α β : Type} (f : α → β) (gt : α → α → Bool) (gt' : β → β → Bool)
    (h : ∀ a b, gt' (f a) (f b) = gt a b) (x : α) (l : List α) :
    (insertBy gt x l).map f = insertBy gt' (f x) (l.map f) := by
  induction l with
  | nil => rfl
  | cons y ys ih =>
    simp only [insertBy, List.map_cons, h]
    split
    · simp only [List.map_cons, ih]
    · simp only [List.map_cons]

theorem map_jsSort {α β : Type} (f : α → β) (gt : α → α → Bool) (gt' : β → β → Bool)
    (h : ∀ a b, gt' (f a) (f b) = gt a b) (l : List α) :
    (jsSort gt l).map f = jsSort gt' (l.map f) := by
  induction l with
  | nil => rfl
  | cons y ys ih => simp only [jsSort, List.map_cons, map_insertBy f gt gt' h, ih]

theorem episodeNumbers_series (req : Request) (now : Nat) (htype : req.type = some "series") :
    episodeNumbers (newItem req now) =
      jsSort numberGt (req.files.filterMap (fun f => (episodeOf f).map Episode.number)) := by
  simp only [episodeNumbers, newItem, htype, if_true, Option.getD_some]
  rw [map_jsSort Episode.number episodeGt numberGt (fun _ _ => rfl), List.map_filterMap]

theorem files_of_names (files : List UploadedFile) (a b c : String)
    (h : files.map (fun f => f.fieldname) = [a, b, c]) :
    ∃ f1 f2 f3, files = [f1, f2, f3] ∧ f1.fieldname = a ∧ f2.fieldname = b ∧
      f3.fieldname = c := by
  match files, h with
  | [f1, f2, f3], h =>
    simp only [List.map_cons, List.map_nil, List.cons.injEq, and_true] at h
    exact ⟨f1, f2, f3, rfl, h.1, h.2.1, h.2.2⟩

theorem numbers_of_three (f1 f2 f3 : UploadedFile) (n1 n2 n3 : JSNum)
    (h1 : (episodeOf f1).map Episode.number = some (some n1))
    (h2 : (episodeOf f2).map Episode.number = some (some n2))
    (h3 : (episodeOf f3).map Episode.number = some (some n3)) :
    [f1, f2, f3].filterMap (fun f => (episodeOf f).map Episode.number)
      = [some n1, some n2, some n3] := by
  simp only [List.filterMap_cons, List.filterMap_nil, h1, h2, h3]

theorem episode_role_1 (f : UploadedFile) (h : f.fieldname = "episode_1") :
    (episodeOf f).map Episode.number = some (some (JSNum.int 1)) :=
  episodeOf_number f _ _ h (by decide) (by decide)

theorem episode_role_2 (f : UploadedFile) (h : f.fieldname = "episode_2") :
    (episodeOf f).map Episode.number = some (some (JSNum.int 2)) :=
  episodeOf_number f _ _ h (by decide) (by decide)

theorem episode_role_3 (f : UploadedFile) (h : f.fieldname = "episode_3") :
    (episodeOf f).map Episode.number = some (some (JSNum.int 3)) :=
  episodeOf_number f _ _ h (by decide) (by decide)

/-- C1 (amended): for every create request whose `type` is `series`, if every
part whose role starts with `episode_` carries a suffix that `parseInt` reads
as a number, the `episodes` list of the entry built is sorted ascending by
`number`; and parts with the roles `episode_3`, `episode_1`, `episode_2` in
each of the six part orders yield the numbers 1, 2, 3 -/
theorem series_episodes_sorted :
    (∀ (req : Request) (now : Nat), req.type = some "series" →
      (∀ f ∈ req.files, startsWith f.fieldname "episode_" = true →
        parseInt (jsToString ((split f.fieldname '_')[1]?)) ≠ JSNum.nan) →
      episodesSorted ((newItem req now).episodes.getD [])) ∧
    (∀ (req : Request) (now : Nat), req.type = some "series" →
      req.files.map (fun f => f.fieldname) ∈ episodeOrders →
      episodeNumbers (newItem req now)
        = [some (JSNum.int 1), some (JSNum.int 2), some (JSNum.int 3)]) := by
  constructor
  · intro req now htype hnum
    simp only [newItem, htype, if_true, Option.getD_some]
    apply jsSort_sorted
    intro e he
    rw [List.mem_filterMap] at he
    obtain ⟨f, hf, hfe⟩ := he
    exact episodeOf_numeric f e (hnum f hf) hfe
  · intro req now htype hmem
    rw [episodeNumbers_series req now htype]
    simp only [episodeOrders, List.mem_cons, List.mem_singleton, List.not_mem_nil,
      or_false] at hmem
    rcases hmem with h | h | h | h | h | h <;>
      obtain ⟨f1, f2, f3, hfiles, h1, h2, h3⟩ := files_of_names _ _ _ _ h <;>
      rw [hfiles]
    · rw [numbers_of_three _ _ _ _ _ _ (episode_role_3 _ h1) (episode_role_1 _ h2)
        (episode_role_2 _ h3)]
      decide
    · rw [numbers_of_three _ _ _ _ _ _ (episode_role_3 _ h1) (episode_role_2 _ h2)
        (episode_role_1 _ h3)]
      decide
    · rw [numbers_of_three _ _ _ _ _ _ (episode_role_1 _ h1) (episode_role_3 _ h2)
        (episode_role_2 _ h3)]
      decide
    · rw [numbers_of_three _ _ _ _ _ _ (episode_role_1 _ h1) (episode_role_2 _ h2)
        (episode_role_3 _ h3)]
      decide
    · rw [numbers_of_three _ _ _ _ _ _ (episode_role_2 _ h1) (episode_role_3 _ h2)
        (episode_role_1 _ h3)]
      decide
    · rw [numbers_of_three _ _ _ _ _ _ (episode_role_2 _ h1) (episode_role_1 _ h2)
        (episode_role_3 _ h3)]
      decide

/-- Witness of C1 (amended): the parts `episode_3`, `episode_1`, `episode_2`
in that order -/
theorem series_episodes_sorted_witness :
    episodesSorted
      ((newItem (seriesRequest [part "episode_3", part "episode_1", part "episode_2"])
        1700000000001).episodes.getD []) ∧
    episodeNumbers
      (newItem (seriesRequest [part "episode_3", part "episode_1", part "episode_2"])
        1700000000001) = [some (JSNum.int 1), some (JSNum.int 2), some (JSNum.int 3)] :=
  ⟨series_episodes_sorted.1 _ _ rfl (by decide), series_episodes_sorted.2 _ _ rfl (by decide)⟩

/-! ## Generated file names and the paths they resolve to -/

theorem digitChar_ne_slash : ∀ k : Nat, k < 10 → Nat.digitChar k ≠ '/' := by
  decide

theorem decimalDigits_no_slash (fuel n : Nat) : '/' ∉ decimalDigits fuel n := by
  induction fuel generalizing n with
  | zero => simp [decimalDigits]
  | succ k ih =>
    unfold decimalDigits
    split
    · rename_i hlt
      simp only [List.mem_singleton]
      exact fun h => digitChar_ne_slash n hlt h.symm
    · simp only [List.mem_append, List.mem_singleton, not_or]
      exact ⟨ih _, fun h => digitChar_ne_slash _ (Nat.mod_lt _ (by decide)) h.symm⟩

theorem extnameChars_no_slash (p : List Char) : '/' ∉ extnameChars p := by
  unfold extnameChars
  simp only
  split_ifs
  · simp
  · simp
  · simp
  · simp only [List.mem_cons, List.mem_reverse, not_or]
    refine ⟨by decide, ?_⟩
    intro h
    have h1 := (List.takeWhile_sublist _).subset h
    have h2 := List.mem_takeWhile_imp h1
    simp at h2

theorem uniqueName_data (stamp rand : Nat) (o : String) :
    (uniqueName stamp rand o).data =
      decimalDigits (stamp + 1) stamp ++ '-' :: (decimalDigits (rand + 1) rand ++
        extnameChars o.data) := by
  simp [uniqueName, numberToString, extname, String.data_append]

theorem filename_no_slash (f : UploadedFile) : '/' ∉ f.filename.data := by
  unfold UploadedFile.filename
  rw [uniqueName_data]
  simp only [List.mem_append, List.mem_cons, not_or]
  exact ⟨decimalDigits_no_slash _ _, by decide, decimalDigits_no_slash _ _,
    extnameChars_no_slash _⟩

theorem filename_has_dash (f : UploadedFile) : '-' ∈ f.filename.data := by
  unfold UploadedFile.filename
  rw [uniqueName_data]
  simp

theorem splitOnChar_no_sep (c : Char) (l : List Char) (h : c ∉ l) :
    splitOnChar c l = [l] := by
  induction l with
  | nil => rfl
  | cons x xs ih =>
    simp only [List.mem_cons, not_or] at h
    unfold splitOnChar
    rw [if_neg (fun e => h.1 e.symm), ih h.2]

theorem splitOnChar_append_sep (c : Char) (a b : List Char) (h : c ∉ a) :
    splitOnChar c (a ++ c :: b) = a :: splitOnChar c b := by
  induction a with
  | nil => simp [splitOnChar]
  | cons x xs ih =>
    simp only [List.mem_cons, not_or] at h
    rw [List.cons_append, splitOnChar, if_neg (fun e => h.1 e.symm), ih h.2]

theorem split_upload_ref (b fn : List Char) (hb : '/' ∉ b) (hfn : '/' ∉ fn) :
    splitOnChar '/' ('/' :: ("uploads".data ++ '/' :: (b ++ '/' :: fn)))
      = [[], "uploads".data, b, fn] := by
  have h0 := splitOnChar_append_sep '/' [] ("uploads".data ++ '/' :: (b ++ '/' :: fn))
    (by simp)
  rw [List.nil_append] at h0
  rw [h0, splitOnChar_append_sep _ _ _ (by decide), splitOnChar_append_sep _ _ _ hb,
    splitOnChar_no_sep _ _ hfn]

theorem pushSegment_plain (stack : List String) (seg : String) (h : '-' ∈ seg.data) :
    pushSegment stack seg = stack ++ [seg] := by
  unfold pushSegment
  have h1 : ¬ (seg = "" ∨ seg = ".") := by
    rintro (e | e) <;> subst e <;> revert h <;> decide
  have h2 : seg ≠ ".." := by
    intro e; subst e; revert h; decide
  rw [if_neg h1, if_neg h2]

theorem pathJoin_bucket (base : List String) (bucket fn : String)
    (hbucket : bucket = "images" ∨ bucket = "movies")
    (hslash : '/' ∉ fn.data) (hdash : '-' ∈ fn.data) :
    pathJoin base ("/uploads/" ++ bucket ++ "/" ++ fn)
      = { segs := base ++ ["uploads", bucket, fn], trailing := false } := by
  have hb : '/' ∉ bucket.data := by
    rcases hbucket with e | e <;> subst e <;> decide
  have hpush : pushSegment (base ++ ["uploads"]) bucket = base ++ ["uploads", bucket] := by
    rcases hbucket with e | e <;> subst e <;> simp [pushSegment]
  have hdata : ("/uploads/" ++ bucket ++ "/" ++ fn).data
      = '/' :: ("uploads".data ++ '/' :: (bucket.data ++ '/' :: fn.data)) := by
    simp [String.data_append]
  have hsplit : split ("/uploads/" ++ bucket ++ "/" ++ fn) '/' = ["", "uploads", bucket, fn] := by
    unfold split
    rw [hdata, split_upload_ref _ _ hb hslash]
    rfl
  have hne : fn.data ≠ [] := by
    intro e; rw [e] at hdash; cases hdash
  have hlast : ("/uploads/" ++ bucket ++ "/" ++ fn).data.getLast? ≠ some '/' := by
    intro e
    rw [String.data_append, List.getLast?_append_of_ne_nil _ hne] at e
    exact hslash (List.mem_of_getLast?_eq_some e)
  unfold pathJoin
  simp only [hsplit, List.foldl_cons, List.foldl_nil]
  have p1 : pushSegment base "" = base := by simp [pushSegment]
  have p2 : pushSegment base "uploads" = base ++ ["uploads"] := by simp [pushSegment]
  rw [p1, p2, hpush, pushSegment_plain _ _ hdash, decide_eq_false hlast]
  simp

theorem pathJoin_images (base : List String) (f : UploadedFile) :
    pathJoin base ("/uploads/images/" ++ f.filename)
      = { segs := base ++ ["uploads", "images", f.filename], trailing := false } := by
  have h := pathJoin_bucket base "images" f.filename (Or.inl rfl) (filename_no_slash f)
    (filename_has_dash f)
  have e : "/uploads/" ++ "images" ++ "/" = "/uploads/images/" := by decide
  rw [e] at h
  exact h

theorem pathJoin_movies (base : List String) (f : UploadedFile) :
    pathJoin base ("/uploads/movies/" ++ f.filename)
      = { segs := base ++ ["uploads", "movies", f.filename], trailing := false } := by
  have h := pathJoin_bucket base "movies" f.filename (Or.inr rfl) (filename_no_slash f)
    (filename_has_dash f)
  have e : "/uploads/" ++ "movies" ++ "/" = "/uploads/movies/" := by decide
  rw [e] at h
  exact h

theorem dataFile_eq (cfg : Config) : dataFile cfg = cfg.dirname ++ ["data", "movies.json"] := by
  simp [dataFile, pathJoin, split, splitOnChar, pushSegment]

/-! ## Asset removal -/

/-- What one removal block does: nothing; or it unlinks the regular file at
the resolved path; or it raises because the resolved path is a directory -/
theorem removeRef_cases (cfg : Config) (ref : Option String) (r : Run) :
    removeRef cfg ref r = r ∨
    (r.thrown = none ∧ truthy ref = true ∧ startsWith (jsToString ref) "/uploads" = true ∧
      (∃ data, r.world.fs (pathJoin cfg.dirname (jsToString ref)).segs = some (Node.file data)) ∧
      (pathJoin cfg.dirname (jsToString ref)).trailing = false ∧
      removeRef cfg ref r =
        { world := r.world.without (pathJoin cfg.dirname (jsToString ref))
          removed := r.removed ++ [pathJoin cfg.dirname (jsToString ref)]
          thrown := none }) ∨
    (r.thrown = none ∧ truthy ref = true ∧ startsWith (jsToString ref) "/uploads" = true ∧
      r.world.fs (pathJoin cfg.dirname (jsToString ref)).segs = some Node.dir ∧
      ∃ msg, removeRef cfg ref r =
        { world := r.world
          removed := r.removed ++ [pathJoin cfg.dirname (jsToString ref)]
          thrown := some msg }) := by
  unfold removeRef
  cases ht : r.thrown with
  | some m => left; rfl
  | none =>
    simp only
    by_cases hg : (truthy ref && startsWith (jsToString ref) "/uploads") = true
    · rw [if_pos hg]
      simp only [Bool.and_eq_true] at hg
      unfold existsSync unlinkSync
      cases hfs : r.world.fs (pathJoin cfg.dirname (jsToString ref)).segs with
      | none => left; simp
      | some node =>
        cases node with
        | dir =>
          right; right
          exact ⟨trivial, hg.1, hg.2, rfl, _, rfl⟩
        | file data =>
          cases htr : (pathJoin cfg.dirname (jsToString ref)).trailing with
          | true => left; simp
          | false =>
            right; left
            refine ⟨trivial, hg.1, hg.2, ⟨data, rfl⟩, rfl, ?_⟩
            simp [World.without]
    · rw [if_neg hg]
      left; trivial

theorem after_refl (r : Run) : r.After r :=
  ⟨rfl, fun _ => Or.inl rfl, fun _ h => h, fun h => h⟩

theorem after_trans {a b c : Run} (h1 : a.After b) (h2 : b.After c) : a.After c := by
  obtain ⟨w1, f1, m1, t1⟩ := h1
  obtain ⟨w2, f2, m2, t2⟩ := h2
  refine ⟨w2.trans w1, ?_, fun p hp => m2 p (m1 p hp), fun h => t1 (t2 h)⟩
  intro q
  rcases f2 q with e2 | ⟨e2, hp2⟩
  · rcases f1 q with e1 | ⟨e1, p, hp, hq⟩
    · exact Or.inl (e2.trans e1)
    · exact Or.inr ⟨e2.trans e1, p, m2 p hp, hq⟩
  · exact Or.inr ⟨e2, hp2⟩

theorem removeRef_after (cfg : Config) (ref : Option String) (r : Run) :
    r.After (removeRef cfg ref r) := by
  rcases removeRef_cases cfg ref r with h | ⟨ht, _, _, _, _, h⟩ | ⟨ht, _, _, _, msg, h⟩
  · rw [h]; exact after_refl r
  · rw [h]
    refine ⟨rfl, ?_, fun p hp => List.mem_append_left _ hp, fun _ => ht⟩
    intro q
    by_cases hq : q = (pathJoin cfg.dirname (jsToString ref)).segs
    · right
      exact ⟨by simp [World.without, hq], _, List.mem_append_right _ (List.mem_singleton_self _),
        hq.symm⟩
    · left
      simp [World.without, hq]
  · rw [h]
    exact ⟨rfl, fun _ => Or.inl rfl, fun p hp => List.mem_append_left _ hp, fun _ => ht⟩

theorem removeRef_source (cfg : Config) (ref : Option String) (r : Run) (p : Path)
    (hp : p ∈ (removeRef cfg ref r).removed) :
    p ∈ r.removed ∨ (truthy ref = true ∧ p = resolve cfg (jsToString ref)) := by
  rcases removeRef_cases cfg ref r with h | ⟨_, hg, _, _, _, h⟩ | ⟨_, hg, _, _, msg, h⟩
  · rw [h] at hp; exact Or.inl hp
  · rw [h] at hp
    simp only [List.mem_append, List.mem_singleton] at hp
    rcases hp with hp | hp
    · exact Or.inl hp
    · exact Or.inr ⟨hg, hp⟩
  · rw [h] at hp
    simp only [List.mem_append, List.mem_singleton] at hp
    rcases hp with hp | hp
    · exact Or.inl hp
    · exact Or.inr ⟨hg, hp⟩

theorem removeRef_absent (cfg : Config) (ref : Option String) (r : Run)
    (hok : (removeRef cfg ref r).thrown = none) (h0 : r.thrown = none)
    (hg1 : truthy ref = true) (hg2 : startsWith (jsToString ref) "/uploads" = true)
    (htr : (resolve cfg (jsToString ref)).trailing = false) :
    (removeRef cfg ref r).world.fs (resolve cfg (jsToString ref)).segs = none := by
  rcases removeRef_cases cfg ref r with h | ⟨_, _, _, _, _, h⟩ | ⟨_, _, _, _, msg, h⟩
  · rw [h]
    have hu : removeRef cfg ref r = r := h
    unfold removeRef at hu
    rw [h0] at hu
    simp only [hg1, hg2, Bool.and_self, if_true] at hu
    unfold resolve at htr ⊢
    cases hfs : r.world.fs (pathJoin cfg.dirname (jsToString ref)).segs with
    | none => rfl
    | some node =>
      exfalso
      cases node with
      | dir =>
        simp only [existsSync, unlinkSync, hfs, if_true] at hu
        have := congrArg Run.thrown hu
        rw [h0] at this
        cases this
      | file data =>
        simp only [existsSync, unlinkSync, hfs, htr, Bool.not_false, if_true,
          Bool.false_eq_true, if_false] at hu
        have := congrArg Run.world hu
        have h2 := congrArg (fun w => w.fs (pathJoin cfg.dirname (jsToString ref)).segs) this
        simp only [if_true, hfs] at h2
        cases h2
  · rw [h]
    simp [World.without, resolve]
  · rw [h] at hok
    cases hok

theorem foldl_after (cfg : Config) (eps : List Episode) (r : Run) :
    r.After (eps.foldl (fun acc ep => removeRef cfg ep.url acc) r) := by
  induction eps generalizing r with
  | nil => exact after_refl r
  | cons ep rest ih =>
    rw [List.foldl_cons]
    exact after_trans (removeRef_after cfg ep.url r) (ih _)

theorem foldl_source (cfg : Config) (eps : List Episode) (r : Run) (p : Path)
    (hp : p ∈ (eps.foldl (fun acc ep => removeRef cfg ep.url acc) r).removed) :
    p ∈ r.removed ∨ ∃ ep ∈ eps, truthy ep.url = true ∧ p = resolve cfg (jsToString ep.url) := by
  induction eps generalizing r with
  | nil => exact Or.inl hp
  | cons ep rest ih =>
    rw [List.foldl_cons] at hp
    rcases ih _ hp with h | ⟨e, he, h⟩
    · rcases removeRef_source cfg ep.url r p h with h | h
      · exact Or.inl h
      · exact Or.inr ⟨ep, List.mem_cons_self _ _, h⟩
    · exact Or.inr ⟨e, List.mem_cons_of_mem _ he, h⟩

theorem after_absent {r r' : Run} (h : r.After r') (q : List String)
    (hq : r.world.fs q = none) : r'.world.fs q = none := by
  rcases h.2.1 q with e | ⟨e, _⟩
  · rw [e, hq]
  · exact e

theorem foldl_absent (cfg : Config) (eps : List Episode) (r : Run)
    (hok : (eps.foldl (fun acc ep => removeRef cfg ep.url acc) r).thrown = none)
    (ep : Episode) (hep : ep ∈ eps) (hg1 : truthy ep.url = true)
    (hg2 : startsWith (jsToString ep.url) "/uploads" = true)
    (htr : (resolve cfg (jsToString ep.url)).trailing = false) :
    (eps.foldl (fun acc ep => removeRef cfg ep.url acc) r).world.fs
      (resolve cfg (jsToString ep.url)).segs = none := by
  induction eps generalizing r with
  | nil => cases hep
  | cons e rest ih =>
    rw [List.foldl_cons] at hok ⊢
    rcases List.mem_cons.1 hep with h | h
    · subst h
      have hrest := foldl_after cfg rest (removeRef cfg ep.url r)
      have h1 : (removeRef cfg ep.url r).thrown = none := hrest.2.2.2 hok
      have h0 : r.thrown = none := (removeRef_after cfg ep.url r).2.2.2 h1
      exact after_absent hrest _ (removeRef_absent cfg ep.url r h1 h0 hg1 hg2 htr)
    · exact ih _ hok h

theorem truthy_some (ref : String) (h : ref ≠ "") : truthy (some ref) = true := by
  simp [truthy, h]

theorem truthy_eq_true (x : Option String) (h : truthy x = true) :
    ∃ s, x = some s ∧ s ≠ "" ∧ jsToString x = s := by
  cases x with
  | none => cases h
  | some s => exact ⟨s, rfl, by simpa [truthy] using h, rfl⟩

theorem removeAssets_after (cfg : Config) (movie : Entry) (w : World) :
    Run.After { world := w, removed := [], thrown := none } (removeAssets cfg movie w) := by
  unfold removeAssets
  simp only
  split
  · exact after_trans (removeRef_after _ _ _) (foldl_after _ _ _)
  · exact after_trans (removeRef_after _ _ _) (removeRef_after _ _ _)

theorem removeAssets_source (cfg : Config) (movie : Entry) (w : World) (p : Path)
    (hp : p ∈ (removeAssets cfg movie w).removed) :
    ∃ ref, movie.handled ref ∧ p = resolve cfg ref := by
  unfold removeAssets at hp
  simp only at hp
  split at hp
  · rename_i eps hd heps
    rcases foldl_source cfg _ _ p hp with h | ⟨ep, hep, ht, hpe⟩
    · rcases removeRef_source cfg _ _ p h with h | ⟨ht, hpe⟩
      · cases h
      · obtain ⟨s, hs, hne, hj⟩ := truthy_eq_true _ ht
        rw [hj] at hpe
        exact ⟨s, ⟨hne, Or.inl hs⟩, hpe⟩
    · obtain ⟨s, hs, hne, hj⟩ := truthy_eq_true _ ht
      rw [hj] at hpe
      refine ⟨s, ⟨hne, Or.inr (Or.inl ⟨?_, _, heps, ep, hep, hs⟩)⟩, hpe⟩
      simpa using hd
  · rename_i hno
    rcases removeRef_source cfg _ _ p hp with h | ⟨ht, hpe⟩
    · rcases removeRef_source cfg _ _ p h with h | ⟨ht, hpe⟩
      · cases h
      · obtain ⟨s, hs, hne, hj⟩ := truthy_eq_true _ ht
        rw [hj] at hpe
        exact ⟨s, ⟨hne, Or.inl hs⟩, hpe⟩
    · obtain ⟨s, hs, hne, hj⟩ := truthy_eq_true _ ht
      rw [hj] at hpe
      refine ⟨s, ⟨hne, Or.inr (Or.inr ⟨?_, hs⟩)⟩, hpe⟩
      by_cases ht : movie.type = some "series"
      · right
        cases he : movie.episodes with
        | none => rfl
        | some eps => exact absurd he (hno eps (by simp [ht]))
      · exact Or.inl ht

theorem removeAssets_absent (cfg : Config) (movie : Entry) (w : World)
    (hok : (removeAssets cfg movie w).thrown = none) (ref : String)
    (href : movie.handled ref) (hs : startsWith ref "/uploads" = true)
    (htr : (resolve cfg ref).trailing = false) :
    (removeAssets cfg movie w).world.fs (resolve cfg ref).segs = none := by
  obtain ⟨hne, hcase⟩ := href
  have htruthy := truthy_some ref hne
  unfold removeAssets at hok ⊢
  simp only at hok ⊢
  split at hok
  · rename_i eps hd heps
    have hfold := foldl_after cfg eps (removeRef cfg movie.image
      { world := w, removed := [], thrown := none })
    have h1 := hfold.2.2.2 hok
    rcases hcase with h | ⟨_, eps', he', ep, hep, hu⟩ | ⟨h, _⟩
    · apply after_absent hfold
      have := removeRef_absent cfg movie.image _ h1 rfl (by rw [h]; exact htruthy)
        (by rw [h]; exact hs) (by rw [h]; exact htr)
      rw [h] at this ⊢
      exact this
    · rw [heps] at he'
      cases he'
      have := foldl_absent cfg eps _ hok ep hep (by rw [hu]; exact htruthy)
        (by rw [hu]; exact hs) (by rw [hu]; exact htr)
      rw [hu] at this
      exact this
    · exfalso
      rcases h with h | h
      · exact h (by simpa using hd)
      · rw [heps] at h; cases h
  · rename_i hno
    have hlast := removeRef_after cfg movie.videoUrl (removeRef cfg movie.image
      { world := w, removed := [], thrown := none })
    have h1 := hlast.2.2.2 hok
    rcases hcase with h | ⟨ht, eps', he', _⟩ | ⟨_, hv⟩
    · apply after_absent hlast
      have := removeRef_absent cfg movie.image _ h1 rfl (by rw [h]; exact htruthy)
        (by rw [h]; exact hs) (by rw [h]; exact htr)
      rw [h] at this ⊢
      exact this
    · exact absurd he' (hno eps' (by simp [ht]))
    · have := removeRef_absent cfg movie.videoUrl _ hok h1 (by rw [hv]; exact htruthy)
        (by rw [hv]; exact hs) (by rw [hv]; exact htr)
      rw [hv] at this ⊢
      exact this

/-! ## Deletion: path safety -/

/-- C3 (failing input): for a catalogue holding an entry whose `image` is
`/uploads/../data/movies.json` and whose `videoUrl` is `/uploadsX/f`, the
delete handler hands `/srv/app/data/movies.json` and `/srv/app/uploadsX/f`
to `fs.unlinkSync`; neither lies inside `/srv/app/uploads`, and the second
file is gone afterwards -/
theorem delete_unlinks_outside_uploads :
    (deleteMovie demoCfg foreignWorld "7").removed
      = [{ segs := ["srv", "app", "data", "movies.json"], trailing := false },
         { segs := ["srv", "app", "uploadsX", "f"], trailing := false }] ∧
    (∀ p ∈ (deleteMovie demoCfg foreignWorld "7").removed,
      p.inside (uploadsDir demoCfg) = false) ∧
    (deleteMovie demoCfg foreignWorld "7").response.success = true ∧
    foreignWorld.fs ["srv", "app", "uploadsX", "f"] = some (Node.file (FileData.bytes "media")) ∧
    (deleteMovie demoCfg foreignWorld "7").world.fs ["srv", "app", "uploadsX", "f"] = none := by
  decide

/-! ## Catalogue write failure -/

/-- C6 (failing input): when the catalogue write fails (`saveMovies` returns
false), the create handler still answers `success: true` with the entry, and
the delete handler of an existing id still answers `success: true`; the
catalogue read afterwards is the one read before -/
theorem save_failure_answered_with_success :
    (saveMovies demoCfg readOnlyWorld
      ((readMovies demoCfg readOnlyWorld).entries ++
        [newItem movieRequest 1700000000001])).1 = false ∧
    (postMovies demoCfg readOnlyWorld movieRequest 1700000000001).1.success = true ∧
    (postMovies demoCfg readOnlyWorld movieRequest 1700000000001).1.item
      = some (newItem movieRequest 1700000000001) ∧
    readMovies demoCfg (postMovies demoCfg readOnlyWorld movieRequest 1700000000001).2
      = readMovies demoCfg readOnlyWorld ∧
    (deleteMovie demoCfg readOnlyWorld "1").response.success = true ∧
    readMovies demoCfg (deleteMovie demoCfg readOnlyWorld "1").world
      = readMovies demoCfg readOnlyWorld := by
  decide

/-! ## Deletion: counterexamples -/

/-- C4 (as stated, refuted): (i) when the catalogue file holds the JSON text
`{}`, no catalogue entry has the id 1, yet `movies.find` raises and the delete
of id 1 answers with status 500, not NotFound; (ii) when the image reference
of the entry with id 1 resolves to a directory, `fs.unlinkSync` raises and a
first delete of id 1 answers with status 500, and a second delete of the same
id answers with status 500 again, not NotFound -/
theorem second_delete_not_notFound :
    readMovies demoCfg braceWorld = Loaded.other false ∧
    (readMovies demoCfg braceWorld).entries = [] ∧
    (deleteMovie demoCfg braceWorld "1").response.status = 500 ∧
    (deleteMovie demoCfg braceWorld "1").response.error
      = some "movies.find is not a function" ∧
    (deleteMovie demoCfg albumWorld "1").response.status = 500 ∧
    (deleteMovie demoCfg (deleteMovie demoCfg albumWorld "1").world "1").response.status
      = 500 := by
  decide

/-- C8 (as stated, refuted): with two entries sharing the id 1, a successful
delete of id 1 persists the empty catalogue, while the loaded catalogue with
exactly the looked-up entry removed still holds the second entry -/
theorem delete_removes_every_entry_with_id :
    (deleteMovie demoCfg (demoWorld twinCatalog [] true) "1").response.success = true ∧
    readMovies demoCfg (demoWorld twinCatalog [] true) = Loaded.array twinCatalog ∧
    (readMovies demoCfg (demoWorld twinCatalog [] true)).entries.find?
      (fun m => (JSNum.int m.id).strictEq (parseInt "1")) = some (movieEntry 1 "" "") ∧
    (readMovies demoCfg (demoWorld twinCatalog [] true)).entries.erase (movieEntry 1 "" "")
      = [{ movieEntry 1 "" "" with title := some "Other" }] ∧
    readMovies demoCfg (deleteMovie demoCfg (demoWorld twinCatalog [] true) "1").world
      = Loaded.array [] := by
  decide

/-- C10 (as stated, refuted): the entry with id 2 survives the delete of id 1
and references `/uploads/images/a.jpg`; that file existed before the delete
and is gone afterwards, because the deleted entry referenced it too -/
theorem delete_removes_shared_file :
    (deleteMovie demoCfg sharedWorld "1").response.success = true ∧
    movieEntry 2 "/uploads/images/a.jpg" "" ∈
      (readMovies demoCfg (deleteMovie demoCfg sharedWorld "1").world).entries ∧
    "/uploads/images/a.jpg" ∈ (movieEntry 2 "/uploads/images/a.jpg" "").references ∧
    sharedWorld.fs (resolve demoCfg "/uploads/images/a.jpg").segs
      = some (Node.file (FileData.bytes "media")) ∧
    (deleteMovie demoCfg sharedWorld "1").world.fs (resolve demoCfg "/uploads/images/a.jpg").segs
      = none := by
  decide

/-! ## Catalogue repository -/

theorem episode_jsonRoundTrip_idem (ep : Episode) :
    ep.jsonRoundTrip.jsonRoundTrip = ep.jsonRoundTrip := by
  rcases ep with ⟨n, u, t⟩
  rcases n with _ | n
  · rfl
  · cases n with
    | nan => rfl
    | inf s => rfl
    | int z => simp only [Episode.jsonRoundTrip, roundInt_idem]

theorem entry_jsonRoundTrip_idem (e : Entry) :
    e.jsonRoundTrip.jsonRoundTrip = e.jsonRoundTrip := by
  rcases e with ⟨i, t, c, ty, im, v, eps⟩
  cases eps with
  | none => simp only [Entry.jsonRoundTrip, roundInt_idem, Option.map_none']
  | some l =>
    simp only [Entry.jsonRoundTrip, roundInt_idem, Option.map_some', List.map_map,
      Entry.mk.injEq, Option.some.injEq, true_and]
    apply List.map_congr_left
    intro ep _
    exact episode_jsonRoundTrip_idem ep

theorem readMovies_eq (cfg : Config) (w : World) (movies : List Entry)
    (h : w.fs (dataFile cfg) = some (Node.file (FileData.catalog movies))) :
    readMovies cfg w = Loaded.array (movies.map Entry.jsonRoundTrip) := by
  unfold readMovies
  simp only [h, jsonParse_jsonStringify]

theorem readMovies_cases (cfg : Config) (w : World) :
    (∃ movies, w.fs (dataFile cfg) = some (Node.file (FileData.catalog movies)) ∧
      readMovies cfg w = Loaded.array (movies.map Entry.jsonRoundTrip)) ∨
    (∃ isNull, w.fs (dataFile cfg) = some (Node.file (FileData.value isNull)) ∧
      readMovies cfg w = Loaded.other isNull) ∨
    ((∀ data, w.fs (dataFile cfg) = some (Node.file data) → ∃ b, data = FileData.bytes b) ∧
      readMovies cfg w = Loaded.array []) := by
  cases hfs : w.fs (dataFile cfg) with
  | none =>
    refine Or.inr (Or.inr ⟨fun data hd => (by cases hd), ?_⟩)
    simp [readMovies, hfs]
  | some node =>
    cases node with
    | dir =>
      refine Or.inr (Or.inr ⟨fun data hd => (by cases hd), ?_⟩)
      simp [readMovies, hfs]
    | file data =>
      cases data with
      | bytes b =>
        refine Or.inr (Or.inr ⟨fun data hd => ?_, ?_⟩)
        · cases hd
          exact ⟨b, rfl⟩
        · simp [readMovies, hfs]
      | value isNull =>
        refine Or.inr (Or.inl ⟨isNull, rfl, ?_⟩)
        simp [readMovies, hfs]
      | catalog movies => exact Or.inl ⟨movies, rfl, readMovies_eq cfg w movies hfs⟩

theorem readMovies_fixed (cfg : Config) (w : World) (m : Entry)
    (h : m ∈ (readMovies cfg w).entries) : m.jsonRoundTrip = m := by
  rcases readMovies_cases cfg w with ⟨movies, _, hr⟩ | ⟨isNull, _, hr⟩ | ⟨_, hr⟩
  · rw [hr, Loaded.entries, List.mem_map] at h
    obtain ⟨e, _, rfl⟩ := h
    exact entry_jsonRoundTrip_idem e
  · rw [hr] at h
    cases h
  · rw [hr] at h
    cases h

theorem readMovies_catalog (cfg : Config) (w : World) (m : Entry)
    (h : m ∈ (readMovies cfg w).entries) :
    ∃ movies, w.fs (dataFile cfg) = some (Node.file (FileData.catalog movies)) := by
  rcases readMovies_cases cfg w with ⟨movies, hfs, _⟩ | ⟨isNull, _, hr⟩ | ⟨_, hr⟩
  · exact ⟨movies, hfs⟩
  · rw [hr] at h
    cases h
  · rw [hr] at h
    cases h

theorem entries_find (cfg : Config) (w : World) (p : Entry → Bool) (movie : Entry)
    (h : (readMovies cfg w).entries.find? p = some movie) :
    readMovies cfg w = Loaded.array (readMovies cfg w).entries := by
  cases hr : readMovies cfg w with
  | array movies => rfl
  | other isNull =>
    rw [hr] at h
    cases h

theorem saveMovies_fs (cfg : Config) (w : World) (movies : List Entry) (q : List String)
    (hq : q ≠ dataFile cfg) : (saveMovies cfg w movies).2.fs q = w.fs q := by
  unfold saveMovies
  split
  · rfl
  · rfl
  · simp [hq]

theorem saveMovies_ok (cfg : Config) (w : World) (movies : List Entry)
    (hw : w.writeOk = true) (hd : w.fs (dataFile cfg) ≠ some Node.dir) :
    (saveMovies cfg w movies).1 = true := by
  unfold saveMovies
  split
  · rename_i h; rw [hw] at h; cases h
  · rename_i h; exact absurd h hd
  · rfl

theorem readMovies_saveMovies (cfg : Config) (w : World) (movies : List Entry)
    (h : (saveMovies cfg w movies).1 = true) :
    readMovies cfg (saveMovies cfg w movies).2
      = Loaded.array (movies.map Entry.jsonRoundTrip) := by
  apply readMovies_eq
  unfold saveMovies at h ⊢
  split at h
  · cases h
  · cases h
  · simp

/-! ## The delete handler, case by case -/

theorem deleteMovie_other (cfg : Config) (w : World) (idParam : String) (isNull : Bool)
    (hr : readMovies cfg w = Loaded.other isNull) :
    (deleteMovie cfg w idParam).response.status = 500 ∧
    (deleteMovie cfg w idParam).response.success = false ∧
    (deleteMovie cfg w idParam).world = w ∧
    (deleteMovie cfg w idParam).removed = [] := by
  unfold deleteMovie
  simp [hr]

theorem deleteMovie_notFound (cfg : Config) (w : World) (idParam : String)
    (movies : List Entry) (hr : readMovies cfg w = Loaded.array movies)
    (h : movies.find? (fun m => (JSNum.int m.id).strictEq (parseInt idParam)) = none) :
    (deleteMovie cfg w idParam).response.status = 404 ∧
    (deleteMovie cfg w idParam).response.success = false ∧
    (deleteMovie cfg w idParam).world = w ∧
    (deleteMovie cfg w idParam).removed = [] := by
  unfold deleteMovie
  simp [hr, h]

theorem deleteMovie_thrown (cfg : Config) (w : World) (idParam : String) (movie : Entry)
    (msg : String)
    (h : (readMovies cfg w).entries.find?
      (fun m => (JSNum.int m.id).strictEq (parseInt idParam)) = some movie)
    (ht : (removeAssets cfg movie w).thrown = some msg) :
    (deleteMovie cfg w idParam).response.status = 500 ∧
    (deleteMovie cfg w idParam).response.success = false ∧
    (deleteMovie cfg w idParam).world = (removeAssets cfg movie w).world ∧
    (deleteMovie cfg w idParam).removed = (removeAssets cfg movie w).removed := by
  obtain ⟨movies, hm⟩ : ∃ movies, readMovies cfg w = Loaded.array movies :=
    ⟨_, entries_find cfg w _ movie h⟩
  rw [hm, Loaded.entries] at h
  unfold deleteMovie
  simp [hm, h, ht, Loaded.entries]

theorem deleteMovie_done (cfg : Config) (w : World) (idParam : String) (movie : Entry)
    (h : (readMovies cfg w).entries.find?
      (fun m => (JSNum.int m.id).strictEq (parseInt idParam)) = some movie)
    (ht : (removeAssets cfg movie w).thrown = none) :
    (deleteMovie cfg w idParam).response.status = 200 ∧
    (deleteMovie cfg w idParam).response.success = true ∧
    (deleteMovie cfg w idParam).world = (saveMovies cfg (removeAssets cfg movie w).world
      ((readMovies cfg w).entries.filter
        (fun m => !(JSNum.int m.id).strictEq (parseInt idParam)))).2 ∧
    (deleteMovie cfg w idParam).removed = (removeAssets cfg movie w).removed := by
  obtain ⟨movies, hm⟩ : ∃ movies, readMovies cfg w = Loaded.array movies :=
    ⟨_, entries_find cfg w _ movie h⟩
  rw [hm, Loaded.entries] at h
  unfold deleteMovie
  simp [hm, h, ht, Loaded.entries]

theorem deleteMovie_cases (cfg : Config) (w : World) (idParam : String) :
    (∃ isNull, readMovies cfg w = Loaded.other isNull) ∨
    (∃ movies, readMovies cfg w = Loaded.array movies ∧
      movies.find? (fun m => (JSNum.int m.id).strictEq (parseInt idParam)) = none) ∨
    (∃ movie, (readMovies cfg w).entries.find?
      (fun m => (JSNum.int m.id).strictEq (parseInt idParam)) = some movie) := by
  cases hr : readMovies cfg w with
  | other isNull => exact Or.inl ⟨isNull, rfl⟩
  | array movies =>
    cases hf : movies.find? (fun m => (JSNum.int m.id).strictEq (parseInt idParam)) with
    | none => exact Or.inr (Or.inl ⟨movies, rfl, hf⟩)
    | some movie => exact Or.inr (Or.inr ⟨movie, hf⟩)

theorem deleteMovie_success (cfg : Config) (w : World) (idParam : String)
    (h : (deleteMovie cfg w idParam).response.success = true) :
    ∃ movie, (readMovies cfg w).entries.find?
        (fun m => (JSNum.int m.id).strictEq (parseInt idParam)) = some movie ∧
      (removeAssets cfg movie w).thrown = none := by
  rcases deleteMovie_cases cfg w idParam with ⟨isNull, hr⟩ | ⟨movies, hr, hf⟩ | ⟨movie, hf⟩
  · rw [(deleteMovie_other cfg w idParam isNull hr).2.1] at h
    cases h
  · rw [(deleteMovie_notFound cfg w idParam movies hr hf).2.1] at h
    cases h
  · cases ht : (removeAssets cfg movie w).thrown with
    | none => exact ⟨movie, hf, ht⟩
    | some msg =>
      rw [(deleteMovie_thrown cfg w idParam movie msg hf ht).2.1] at h
      cases h

theorem saved_after_removal (cfg : Config) (w : World) (movie : Entry) (movies : List Entry)
    (hm : movie ∈ (readMovies cfg w).entries) (hw : w.writeOk = true) :
    (saveMovies cfg (removeAssets cfg movie w).world movies).1 = true := by
  have hafter := removeAssets_after cfg movie w
  apply saveMovies_ok
  · rw [hafter.1]; exact hw
  · obtain ⟨ms, hfs⟩ := readMovies_catalog cfg w movie hm
    rcases hafter.2.1 (dataFile cfg) with e | ⟨e, _⟩
    · rw [e, hfs]
      intro hc; cases hc
    · rw [e]
      intro hc; cases hc

theorem readMovies_after_delete (cfg : Config) (w : World) (idParam : String)
    (hw : w.writeOk = true) (h : (deleteMovie cfg w idParam).response.success = true) :
    readMovies cfg (deleteMovie cfg w idParam).world =
      Loaded.array ((readMovies cfg w).entries.filter
        (fun m => !(JSNum.int m.id).strictEq (parseInt idParam))) := by
  obtain ⟨movie, hf, ht⟩ := deleteMovie_success cfg w idParam h
  rw [(deleteMovie_done cfg w idParam movie hf ht).2.2.1]
  rw [readMovies_saveMovies _ _ _
    (saved_after_removal cfg w movie _ (List.mem_of_find?_eq_some hf) hw)]
  congr 1
  conv_rhs => rw [← List.map_id (List.filter _ _)]
  apply List.map_congr_left
  intro m hm
  exact readMovies_fixed cfg w m (List.mem_of_mem_filter hm)

theorem handled_references (movie : Entry) (ref : String) (h : movie.handled ref) :
    ref ∈ movie.references := by
  obtain ⟨hne, hcase⟩ := h
  unfold Entry.references
  rw [List.mem_filter]
  refine ⟨?_, by simpa using hne⟩
  rcases hcase with h | ⟨_, eps, he, ep, hep, hu⟩ | ⟨_, hv⟩
  · simp [h]
  · simp only [List.mem_append, List.mem_filterMap, he, Option.getD_some]
    exact Or.inr ⟨ep, hep, hu⟩
  · simp [hv]

theorem removal_frame (cfg : Config) (movie : Entry) (w : World) (q : List String)
    (h : ∀ ref ∈ movie.references, (resolve cfg ref).segs ≠ q) :
    (removeAssets cfg movie w).world.fs q = w.fs q := by
  rcases (removeAssets_after cfg movie w).2.1 q with e | ⟨_, p, hp, hq⟩
  · exact e
  · obtain ⟨ref, href, hpr⟩ := removeAssets_source cfg movie w p hp
    rw [hpr] at hq
    exact absurd hq (h ref (handled_references movie ref href))

/-! ## Deletion: the amended claims -/

/-- C4 (amended): (i) when `readMovies()` returns an array of entries (a
missing or unparsable catalogue document reads as the empty array) and no
entry has the id that `parseInt` yields, delete answers NotFound (status 404,
`success: false`), unlinks nothing and leaves the whole state unchanged;
(ii) when the catalogue file is writable and a first delete call for an id
does not end in a server error, a second delete call for the same id answers
NotFound and changes nothing; (iii) when the catalogue document holds a JSON
value that is not an array, delete answers with a server error (status 500,
`success: false`) and leaves the whole state unchanged -/
theorem delete_unknown_id_notFound :
    (∀ (cfg : Config) (w : World) (idParam : String) (movies : List Entry),
      readMovies cfg w = Loaded.array movies →
      (∀ m ∈ movies, (JSNum.int m.id).strictEq (parseInt idParam) = false) →
      (deleteMovie cfg w idParam).response.status = 404 ∧
      (deleteMovie cfg w idParam).response.success = false ∧
      (deleteMovie cfg w idParam).world = w ∧
      (deleteMovie cfg w idParam).removed = []) ∧
    (∀ (cfg : Config) (w : World) (idParam : String),
      w.writeOk = true → (deleteMovie cfg w idParam).response.status ≠ 500 →
      (deleteMovie cfg (deleteMovie cfg w idParam).world idParam).response.status = 404 ∧
      (deleteMovie cfg (deleteMovie cfg w idParam).world idParam).response.success = false ∧
      (deleteMovie cfg (deleteMovie cfg w idParam).world idParam).world
        = (deleteMovie cfg w idParam).world ∧
      (deleteMovie cfg (deleteMovie cfg w idParam).world idParam).removed = []) ∧
    (∀ (cfg : Config) (w : World) (idParam : String) (isNull : Bool),
      w.fs (dataFile cfg) = some (Node.file (FileData.value isNull)) →
      (deleteMovie cfg w idParam).response.status = 500 ∧
      (deleteMovie cfg w idParam).response.success = false ∧
      (deleteMovie cfg w idParam).world = w ∧
      (deleteMovie cfg w idParam).removed = []) := by
  refine ⟨?_, ?_, ?_⟩
  · intro cfg w idParam movies hr h
    apply deleteMovie_notFound cfg w idParam movies hr
    rw [List.find?_eq_none]
    intro m hm
    rw [h m hm]
    decide
  · intro cfg w idParam hw hst
    rcases deleteMovie_cases cfg w idParam with ⟨isNull, hr⟩ | ⟨movies, hr, hf⟩ | ⟨movie, hf⟩
    · exact absurd (deleteMovie_other cfg w idParam isNull hr).1 hst
    · rw [(deleteMovie_notFound cfg w idParam movies hr hf).2.2.1]
      exact deleteMovie_notFound cfg w idParam movies hr hf
    · cases ht : (removeAssets cfg movie w).thrown with
      | some msg => exact absurd (deleteMovie_thrown cfg w idParam movie msg hf ht).1 hst
      | none =>
        apply deleteMovie_notFound cfg _ idParam _
          (readMovies_after_delete cfg w idParam hw
            (deleteMovie_done cfg w idParam movie hf ht).2.1)
        rw [List.find?_eq_none]
        intro m hm
        have := (List.mem_filter.1 hm).2
        simpa using this
  · intro cfg w idParam isNull hfs
    apply deleteMovie_other cfg w idParam isNull
    simp [readMovies, hfs]

/-- Witness of C4 (amended): an unknown id is deleted once; id 1 is deleted
twice in a writable state (the catalogue holds ids 1 and 2, the unknown id is
3); an id is deleted from a state whose catalogue file holds `{}` -/
theorem delete_unknown_id_notFound_witness :
    (readMovies demoCfg twoMovies = Loaded.array (readMovies demoCfg twoMovies).entries ∧
      (∀ m ∈ (readMovies demoCfg twoMovies).entries,
        (JSNum.int m.id).strictEq (parseInt "3") = false) ∧
      (deleteMovie demoCfg twoMovies "3").response.status = 404) ∧
    (twoMovies.writeOk = true ∧
      (deleteMovie demoCfg twoMovies "1").response.status ≠ 500 ∧
      (deleteMovie demoCfg (deleteMovie demoCfg twoMovies "1").world "1").response.status
        = 404) ∧
    (braceWorld.fs (dataFile demoCfg) = some (Node.file (FileData.value false)) ∧
      (deleteMovie demoCfg braceWorld "1").response.status = 500) :=
  ⟨⟨by decide, by decide,
    (delete_unknown_id_notFound.1 demoCfg twoMovies "3" (readMovies demoCfg twoMovies).entries
      (by decide) (by decide)).1⟩,
   ⟨rfl, by decide, (delete_unknown_id_notFound.2.1 demoCfg twoMovies "1" rfl (by decide)).1⟩,
   ⟨by decide, (delete_unknown_id_notFound.2.2 demoCfg braceWorld "1" false (by decide)).1⟩⟩

/-- C8 (amended): when the catalogue file is writable, after a delete that
answers success the persisted catalogue is the loaded catalogue without the
entries whose id equals the requested id (the looked-up entry and every other
entry sharing its id); every entry with another id is kept, unchanged and in
its original relative order -/
theorem delete_persists_filtered_catalog (cfg : Config) (w : World) (idParam : String)
    (hw : w.writeOk = true) (h : (deleteMovie cfg w idParam).response.success = true) :
    readMovies cfg (deleteMovie cfg w idParam).world =
      Loaded.array ((readMovies cfg w).entries.filter
        (fun m => !(JSNum.int m.id).strictEq (parseInt idParam))) ∧
    (∀ m, m ∈ (readMovies cfg (deleteMovie cfg w idParam).world).entries ↔
      (m ∈ (readMovies cfg w).entries ∧
        (JSNum.int m.id).strictEq (parseInt idParam) = false)) ∧
    List.Sublist (readMovies cfg (deleteMovie cfg w idParam).world).entries
      (readMovies cfg w).entries := by
  have hr := readMovies_after_delete cfg w idParam hw h
  refine ⟨hr, ?_, ?_⟩
  · intro m
    rw [hr, Loaded.entries, List.mem_filter]
    simp
  · rw [hr]
    exact List.filter_sublist _

/-- Witness of C8 (amended): deleting id 1 from a catalogue of two movies
leaves the movie with id 2 -/
theorem delete_persists_filtered_catalog_witness :
    twoMovies.writeOk = true ∧
    (deleteMovie demoCfg twoMovies "1").response.success = true ∧
    readMovies demoCfg (deleteMovie demoCfg twoMovies "1").world =
      Loaded.array ((readMovies demoCfg twoMovies).entries.filter
        (fun m => !(JSNum.int m.id).strictEq (parseInt "1"))) :=
  ⟨rfl, by decide, (delete_persists_filtered_catalog demoCfg twoMovies "1" rfl (by decide)).1⟩

/-- C10 (amended): the delete operation leaves untouched every file other
than the catalogue document at which no reference (`image`, `videoUrl`,
`episodes[*].url`) of the looked-up entry resolves: such a file has the same
content afterwards.  A file referenced by a surviving entry is therefore
untouched unless the deleted entry references the same path -/
theorem delete_leaves_other_files (cfg : Config) (w : World) (idParam : String)
    (q : List String) (hq : q ≠ dataFile cfg)
    (h : ∀ movie ∈ (readMovies cfg w).entries.find?
        (fun m => (JSNum.int m.id).strictEq (parseInt idParam)),
      ∀ ref ∈ movie.references, (resolve cfg ref).segs ≠ q) :
    (deleteMovie cfg w idParam).world.fs q = w.fs q := by
  rcases deleteMovie_cases cfg w idParam with ⟨isNull, hr⟩ | ⟨movies, hr, hf⟩ | ⟨movie, hf⟩
  · rw [(deleteMovie_other cfg w idParam isNull hr).2.2.1]
  · rw [(deleteMovie_notFound cfg w idParam movies hr hf).2.2.1]
  · have hframe := removal_frame cfg movie w q (h movie (by rw [hf]; exact rfl))
    cases ht : (removeAssets cfg movie w).thrown with
    | some msg =>
      rw [(deleteMovie_thrown cfg w idParam movie msg hf ht).2.2.1]
      exact hframe
    | none =>
      rw [(deleteMovie_done cfg w idParam movie hf ht).2.2.1, saveMovies_fs _ _ _ _ hq]
      exact hframe

/-- Witness of C10 (amended): deleting id 1 leaves the image of the movie
with id 2 in place -/
theorem delete_leaves_other_files_witness :
    ["srv", "app", "uploads", "images", "b.jpg"] ≠ dataFile demoCfg ∧
    (∀ movie ∈ (readMovies demoCfg twoMovies).entries.find?
        (fun m => (JSNum.int m.id).strictEq (parseInt "1")),
      ∀ ref ∈ movie.references,
        (resolve demoCfg ref).segs ≠ ["srv", "app", "uploads", "images", "b.jpg"]) ∧
    (deleteMovie demoCfg twoMovies "1").world.fs ["srv", "app", "uploads", "images", "b.jpg"]
      = twoMovies.fs ["srv", "app", "uploads", "images", "b.jpg"] :=
  ⟨by decide, by decide,
   delete_leaves_other_files demoCfg twoMovies "1" _ (by decide) (by decide)⟩

/-! ## Round trip through the catalogue document -/

theorem map_fixed {α : Type} (f : α → α) : ∀ l : List α, l.map f = l → ∀ x ∈ l, f x = x
  | [], _, x, hx => by cases hx
  | a :: l, h, x, hx => by
    simp only [List.map_cons, List.cons.injEq] at h
    rcases List.mem_cons.1 hx with rfl | hx
    · exact h.1
    · exact map_fixed f l h.2 x hx

theorem map_eq_self_iff {α : Type} (f : α → α) (l : List α) :
    l.map f = l ↔ ∀ x ∈ l, f x = x := by
  constructor
  · exact map_fixed f l
  · intro h
    conv_rhs => rw [← List.map_id l]
    apply List.map_congr_left
    intro x hx
    exact h x hx

/-- An episode is read back unchanged exactly when its number is `null` or an
integer that a double holds (not `NaN`, not an infinity) -/
theorem episode_jsonRoundTrip_fixed_iff (ep : Episode) :
    ep.jsonRoundTrip = ep ↔
      (ep.number = none ∨ ∃ z, ep.number = some (JSNum.int z) ∧ roundInt z = z) := by
  rcases ep with ⟨n, u, t⟩
  rcases n with _ | n
  · simp [Episode.jsonRoundTrip]
  · cases n with
    | nan => simp [Episode.jsonRoundTrip]
    | inf s => simp [Episode.jsonRoundTrip]
    | int z => simp [Episode.jsonRoundTrip]

/-- An entry is read back unchanged exactly when its id is an integer that a
double holds and each of its episodes is read back unchanged -/
theorem entry_jsonRoundTrip_fixed_iff (e : Entry) :
    e.jsonRoundTrip = e ↔
      (roundInt e.id = e.id ∧
        ∀ eps, e.episodes = some eps → ∀ ep ∈ eps,
          (ep.number = none ∨ ∃ z, ep.number = some (JSNum.int z) ∧ roundInt z = z)) := by
  rcases e with ⟨i, t, c, ty, im, v, eps⟩
  cases eps with
  | none => simp [Entry.jsonRoundTrip]
  | some l =>
    simp only [Entry.jsonRoundTrip, Option.map_some', Entry.mk.injEq, Option.some.injEq,
      true_and, map_eq_self_iff, episode_jsonRoundTrip_fixed_iff]
    constructor
    · rintro ⟨h1, h2⟩
      exact ⟨h1, fun eps he => he ▸ h2⟩
    · rintro ⟨h1, h2⟩
      exact ⟨h1, h2 l rfl⟩

theorem episode_jsonRoundTrip_valid (ep : Episode) (h : ep.Valid) : ep.jsonRoundTrip = ep := by
  obtain ⟨n, _, hr, hn⟩ := h
  rcases ep with ⟨num, u, t⟩
  simp only at hn
  subst hn
  simp only [Episode.jsonRoundTrip, hr]

theorem entry_jsonRoundTrip_valid (e : Entry) (h : e.Valid) : e.jsonRoundTrip = e := by
  obtain ⟨hid, _, _, _, _, heps⟩ := h
  rcases e with ⟨i, t, c, ty, im, v, eps⟩
  simp only at hid
  cases eps with
  | none => simp only [Entry.jsonRoundTrip, hid, Option.map_none']
  | some l =>
    have hl := (heps l rfl).1
    simp only [Entry.jsonRoundTrip, hid, Option.map_some', Entry.mk.injEq, Option.some.injEq,
      true_and]
    conv_rhs => rw [← List.map_id l]
    apply List.map_congr_left
    intro ep hep
    exact episode_jsonRoundTrip_valid ep (hl ep hep)

/-- C9 (amended): for every list of existing entries and every valid
catalogue entry `E`, if `saveMovies([...existing, E])` returns true then the
next `readMovies()` returns an array that contains an entry equal to `E`: the
saved list in which each existing entry is replaced by what
`JSON.parse(JSON.stringify(_))` gives for it (a `NaN` or infinite episode
number is read back as `null`), followed by `E`.  It equals the saved list
entry for entry exactly when every existing entry is read back unchanged, in
particular whenever `existing` is what `readMovies()` returned -/
theorem save_then_read_round_trip (cfg : Config) (w : World) (existing : List Entry)
    (E : Entry) (hE : E.Valid)
    (hs : (saveMovies cfg w (existing ++ [E])).1 = true) :
    readMovies cfg (saveMovies cfg w (existing ++ [E])).2
      = Loaded.array (existing.map Entry.jsonRoundTrip ++ [E]) ∧
    E ∈ (readMovies cfg (saveMovies cfg w (existing ++ [E])).2).entries ∧
    (readMovies cfg (saveMovies cfg w (existing ++ [E])).2 = Loaded.array (existing ++ [E]) ↔
      ∀ e ∈ existing, e.jsonRoundTrip = e) ∧
    (∀ w0 : World, existing = (readMovies cfg w0).entries →
      readMovies cfg (saveMovies cfg w (existing ++ [E])).2
        = Loaded.array (existing ++ [E])) := by
  have hr : readMovies cfg (saveMovies cfg w (existing ++ [E])).2
      = Loaded.array (existing.map Entry.jsonRoundTrip ++ [E]) := by
    rw [readMovies_saveMovies _ _ _ hs, List.map_append, List.map_singleton,
      entry_jsonRoundTrip_valid E hE]
  have hiff : readMovies cfg (saveMovies cfg w (existing ++ [E])).2
        = Loaded.array (existing ++ [E]) ↔ ∀ e ∈ existing, e.jsonRoundTrip = e := by
    rw [hr, Loaded.array.injEq, List.append_left_inj]
    exact map_eq_self_iff Entry.jsonRoundTrip existing
  refine ⟨hr, ?_, hiff, ?_⟩
  · rw [hr]
    simp [Loaded.entries]
  · intro w0 h0
    apply hiff.2
    intro e he
    rw [h0] at he
    exact readMovies_fixed cfg w0 e he

theorem showEntry_valid : showEntry.Valid := by
  unfold Entry.Valid
  refine ⟨?_, ?_, ?_, ?_, ?_, ?_⟩
  · decide
  · rfl
  · exact Or.inr rfl
  · intro h; cases h
  · intro _; rfl
  intro eps he
  simp only [showEntry, Option.some.injEq] at he
  subst he
  constructor
  · intro ep hep
    simp only [List.mem_cons, List.mem_singleton, List.not_mem_nil, or_false] at hep
    rcases hep with rfl | rfl
    · exact ⟨1, by decide, by decide, rfl⟩
    · exact ⟨2, by decide, by decide, rfl⟩
  · simp [episodesSorted, toNumber, JSNum.le]

/-- Witness of C9 (amended): a valid series entry appended to the catalogue
read from a state holding two movies -/
theorem save_then_read_round_trip_witness :
    showEntry.Valid ∧
    (saveMovies demoCfg twoMovies
      ((readMovies demoCfg twoMovies).entries ++ [showEntry])).1 = true ∧
    showEntry ∈ (readMovies demoCfg
        (saveMovies demoCfg twoMovies
          ((readMovies demoCfg twoMovies).entries ++ [showEntry])).2).entries ∧
    readMovies demoCfg
        (saveMovies demoCfg twoMovies
          ((readMovies demoCfg twoMovies).entries ++ [showEntry])).2
      = Loaded.array ((readMovies demoCfg twoMovies).entries ++ [showEntry]) :=
  ⟨showEntry_valid, by decide,
   (save_then_read_round_trip demoCfg twoMovies (readMovies demoCfg twoMovies).entries
     showEntry showEntry_valid (by decide)).2.1,
   (save_then_read_round_trip demoCfg twoMovies (readMovies demoCfg twoMovies).entries
     showEntry showEntry_valid (by decide)).2.2.2 twoMovies rfl⟩

/-- C9 (as stated, refuted): the existing entry is the one that the create
handler builds from the part `episode_x`, whose episode number is `NaN`;
`saveMovies([pilotEntry, showEntry])` returns true and the valid entry
`showEntry` is read back, but the list read is not the saved list: the
episode number of the first entry is read back as `null` -/
theorem save_then_read_changes_nan_entry :
    showEntry.Valid ∧
    episodeNumbers pilotEntry = [some JSNum.nan] ∧
    (saveMovies demoCfg twoMovies ([pilotEntry] ++ [showEntry])).1 = true ∧
    showEntry ∈
      (readMovies demoCfg (saveMovies demoCfg twoMovies ([pilotEntry] ++ [showEntry])).2).entries ∧
    readMovies demoCfg (saveMovies demoCfg twoMovies ([pilotEntry] ++ [showEntry])).2
      ≠ Loaded.array ([pilotEntry] ++ [showEntry]) ∧
    (readMovies demoCfg
      (saveMovies demoCfg twoMovies ([pilotEntry] ++ [showEntry])).2).entries.map episodeNumbers
      = [[none], [some (JSNum.int 1), some (JSNum.int 2)]] :=
  ⟨showEntry_valid, by decide, by decide, by decide, by decide, by decide⟩

/-! ## Asset lifecycle of built entries -/

theorem found_ref (files : List UploadedFile) (p : UploadedFile → Bool) (pre ref : String)
    (hne : ref ≠ "")
    (h : ref = match files.find? p with
      | some f => pre ++ f.filename
      | none => "") :
    ∃ f ∈ files, ref = pre ++ f.filename := by
  cases hf : files.find? p with
  | none => rw [hf] at h; exact absurd h hne
  | some f => rw [hf] at h; exact ⟨f, List.mem_of_find?_eq_some hf, h⟩

theorem episodeOf_url (f : UploadedFile) (ep : Episode) (h : episodeOf f = some ep) :
    ep.url = some ("/uploads/movies/" ++ f.filename) := by
  unfold episodeOf at h
  split at h
  · simp only [Option.some.injEq] at h
    rw [← h]
  · cases h

theorem newItem_references (req : Request) (now : Nat) (ref : String)
    (h : ref ∈ (newItem req now).references) :
    (newItem req now).jsonRoundTrip.handled ref ∧
    ∃ f ∈ req.files, ref = "/uploads/images/" ++ f.filename ∨
      ref = "/uploads/movies/" ++ f.filename := by
  unfold Entry.references at h
  rw [List.mem_filter] at h
  obtain ⟨hmem, hne⟩ := h
  have hne : ref ≠ "" := by simpa using hne
  by_cases htype : req.type = some "series"
  · simp only [newItem, htype, if_true, Option.toList_some, Option.toList_none,
      Option.getD_some, List.append_nil, List.singleton_append, List.mem_cons,
      List.mem_filterMap] at hmem
    rcases hmem with himg | ⟨ep, hep, hu⟩
    · refine ⟨⟨hne, Or.inl ?_⟩, ?_⟩
      · simp only [newItem, htype, if_true, Entry.jsonRoundTrip]
        rw [himg]
      · obtain ⟨f, hf, e⟩ := found_ref _ _ _ _ hne himg
        exact ⟨f, hf, Or.inl e⟩
    · rw [mem_jsSort, List.mem_filterMap] at hep
      obtain ⟨f, hf, hfe⟩ := hep
      have hurl := episodeOf_url f ep hfe
      rw [hu] at hurl
      refine ⟨⟨hne, Or.inr (Or.inl ⟨?_, ?_⟩)⟩, f, hf, Or.inr (Option.some.inj hurl)⟩
      · simp only [newItem, htype, if_true, Entry.jsonRoundTrip]
        decide
      · refine ⟨(jsSort episodeGt (req.files.filterMap episodeOf)).map Episode.jsonRoundTrip,
          ?_, ep.jsonRoundTrip, ?_, ?_⟩
        · simp only [newItem, htype, if_true, Entry.jsonRoundTrip, Option.map_some']
        · apply List.mem_map_of_mem
          rw [mem_jsSort, List.mem_filterMap]
          exact ⟨f, hf, hfe⟩
        · exact hu
  · simp only [newItem, htype, if_false, Option.toList_some, Option.getD_none,
      List.filterMap_nil, List.append_nil, List.singleton_append, List.mem_cons,
      List.mem_singleton, List.not_mem_nil, or_false] at hmem
    rcases hmem with himg | hvid
    · refine ⟨⟨hne, Or.inl ?_⟩, ?_⟩
      · simp only [newItem, htype, if_false, Entry.jsonRoundTrip]
        rw [himg]
      · obtain ⟨f, hf, e⟩ := found_ref _ _ _ _ hne himg
        exact ⟨f, hf, Or.inl e⟩
    · refine ⟨⟨hne, Or.inr (Or.inr ⟨Or.inr ?_, ?_⟩)⟩, ?_⟩
      · simp only [newItem, htype, if_false, Entry.jsonRoundTrip, Option.map_none']
      · simp only [newItem, htype, if_false, Entry.jsonRoundTrip]
        rw [hvid]
      · obtain ⟨f, hf, e⟩ := found_ref _ _ _ _ hne hvid
        exact ⟨f, hf, Or.inr e⟩

theorem startsWith_append (s t p : String) (h : startsWith s p = true) :
    startsWith (s ++ t) p = true := by
  unfold startsWith at h ⊢
  rw [List.isPrefixOf_iff_prefix] at h ⊢
  rw [String.data_append]
  exact h.trans (List.prefix_append _ _)

theorem upload_ref_resolved (cfg : Config) (f : UploadedFile) (ref : String)
    (h : ref = "/uploads/images/" ++ f.filename ∨ ref = "/uploads/movies/" ++ f.filename) :
    startsWith ref "/uploads" = true ∧ (resolve cfg ref).trailing = false ∧
    (resolve cfg ref).segs ≠ dataFile cfg ∧
    (resolve cfg ref).inside (uploadsDir cfg) = true := by
  have hup : uploadsDir cfg = cfg.dirname ++ ["uploads"] := by
    simp [uploadsDir, pathJoin, split, splitOnChar, pushSegment]
  rcases h with e | e <;> subst e
  · refine ⟨startsWith_append _ _ _ (by decide), ?_, ?_, ?_⟩
    · rw [resolve, pathJoin_images]
    · rw [resolve, pathJoin_images, dataFile_eq]
      intro hc
      have := congrArg List.length hc
      simp at this
    · rw [resolve, pathJoin_images, hup]
      simp [Path.inside]
  · refine ⟨startsWith_append _ _ _ (by decide), ?_, ?_, ?_⟩
    · rw [resolve, pathJoin_movies]
    · rw [resolve, pathJoin_movies, dataFile_eq]
      intro hc
      have := congrArg List.length hc
      simp at this
    · rw [resolve, pathJoin_movies, hup]
      simp [Path.inside]

/-- C5: for every entry `E` built by the create handler and every state
whose catalogue holds `E` (as read back from the catalogue document) as the
only entry with its id: after a delete of `E.id` that answers success, no
node is left at the path of any file referenced by `E.image`, `E.videoUrl`
and `E.episodes[*].url`, whether or not one was there before -/
theorem delete_removes_built_assets (cfg : Config) (w : World) (req : Request) (now : Nat)
    (idParam : String)
    (hid : parseInt idParam = JSNum.int (newItem req now).id)
    (_hmem : (newItem req now).jsonRoundTrip ∈ (readMovies cfg w).entries)
    (honly : ∀ m ∈ (readMovies cfg w).entries, m.id = (newItem req now).id →
      m = (newItem req now).jsonRoundTrip)
    (hok : (deleteMovie cfg w idParam).response.success = true) :
    ∀ ref ∈ (newItem req now).references,
      (deleteMovie cfg w idParam).world.fs (resolve cfg ref).segs = none ∧
      existsSync (deleteMovie cfg w idParam).world (resolve cfg ref) = false := by
  obtain ⟨movie, hf, ht⟩ := deleteMovie_success cfg w idParam hok
  have hmovie : movie = (newItem req now).jsonRoundTrip := by
    apply honly movie (List.mem_of_find?_eq_some hf)
    have hp := List.find?_some hf
    rw [hid] at hp
    simpa [JSNum.strictEq] using hp
  subst hmovie
  intro ref href
  obtain ⟨hh, f, _, hform⟩ := newItem_references req now ref href
  obtain ⟨hs, htr, hnd, _⟩ := upload_ref_resolved cfg f ref hform
  have hnone : (deleteMovie cfg w idParam).world.fs (resolve cfg ref).segs = none := by
    rw [(deleteMovie_done cfg w idParam _ hf ht).2.2.1, saveMovies_fs _ _ _ _ hnd]
    exact removeAssets_absent cfg _ w ht ref hh hs htr
  exact ⟨hnone, by simp [existsSync, hnone]⟩

/-- Witness of C5: the movie built from an image part and a video part is
deleted from the state that holds it and its two files -/
theorem delete_removes_built_assets_witness :
    parseInt "1700000000001" = JSNum.int (newItem posterRequest 1700000000001).id ∧
    (newItem posterRequest 1700000000001).jsonRoundTrip ∈
      (readMovies demoCfg posterWorld).entries ∧
    (∀ m ∈ (readMovies demoCfg posterWorld).entries,
      m.id = (newItem posterRequest 1700000000001).id →
      m = (newItem posterRequest 1700000000001).jsonRoundTrip) ∧
    (deleteMovie demoCfg posterWorld "1700000000001").response.success = true ∧
    (newItem posterRequest 1700000000001).references
      = ["/uploads/images/1700000000000-42.mp4", "/uploads/movies/1700000000000-42.mp4"] ∧
    posterWorld.fs (resolve demoCfg "/uploads/images/1700000000000-42.mp4").segs
      = some (Node.file (FileData.bytes "media")) ∧
    (deleteMovie demoCfg posterWorld "1700000000001").world.fs
      (resolve demoCfg "/uploads/images/1700000000000-42.mp4").segs = none :=
  ⟨by decide, by decide, by decide, by decide, by decide, by decide,
   (delete_removes_built_assets demoCfg posterWorld posterRequest 1700000000001 "1700000000001"
     (by decide) (by decide) (by decide) (by decide) _ (by decide)).1⟩

/-- The path at which the storage engine stores an uploaded file is the one
at which the delete handler resolves the reference built for it -/
theorem stored_path_resolved (cfg : Config) (f : UploadedFile) :
    pathJoin (imagesDir cfg) f.filename = resolve cfg ("/uploads/images/" ++ f.filename) ∧
    pathJoin (moviesDir cfg) f.filename = resolve cfg ("/uploads/movies/" ++ f.filename) := by
  have hsplit : split f.filename '/' = [f.filename] := by
    unfold split
    rw [splitOnChar_no_sep _ _ (filename_no_slash f)]
    rfl
  have hne : f.filename.data ≠ [] := by
    intro e
    have := filename_has_dash f
    rw [e] at this
    cases this
  have hlast : f.filename.data.getLast? ≠ some '/' := fun e =>
    filename_no_slash f (List.mem_of_getLast?_eq_some e)
  have hjoin : ∀ base : List String,
      pathJoin base f.filename = { segs := base ++ [f.filename], trailing := false } := by
    intro base
    unfold pathJoin
    simp only [hsplit, List.foldl_cons, List.foldl_nil]
    rw [pushSegment_plain _ _ (filename_has_dash f), decide_eq_false hlast]
    simp
  have himg : imagesDir cfg = cfg.dirname ++ ["uploads", "images"] := by
    simp [imagesDir, uploadsDir, pathJoin, split, splitOnChar, pushSegment]
  have hmov : moviesDir cfg = cfg.dirname ++ ["uploads", "movies"] := by
    simp [moviesDir, uploadsDir, pathJoin, split, splitOnChar, pushSegment]
  constructor
  · rw [hjoin, resolve, pathJoin_images, himg]
    simp
  · rw [hjoin, resolve, pathJoin_movies, hmov]
    simp

/-! ## The library models on examples from their documentation -/

theorem extname_examples :
    extname "index.html" = ".html" ∧ extname "index.coffee.md" = ".md" ∧
    extname "index." = "." ∧ extname "index" = "" ∧ extname ".index" = "" ∧
    extname ".index.md" = ".md" ∧ extname ".." = "" ∧ extname "a/b.c/" = ".c" ∧
    extname "a.b/c" = "" := by
  decide

theorem parseInt_examples :
    parseInt "12" = JSNum.int 12 ∧ parseInt "  42px" = JSNum.int 42 ∧
    parseInt "-7" = JSNum.int (-7) ∧ parseInt "0x1F" = JSNum.int 31 ∧
    parseInt "" = JSNum.nan ∧ parseInt "abc" = JSNum.nan ∧ parseInt "undefined" = JSNum.nan ∧
    parseInt "1700000000001" = JSNum.int 1700000000001 ∧
    parseInt "9007199254740993" = JSNum.int 9007199254740992 ∧
    parseInt "9007199254740995" = JSNum.int 9007199254740996 ∧
    parseInt "-9007199254740993" = JSNum.int (-9007199254740992) ∧
    parseInt (String.mk (List.replicate 400 '9')) = JSNum.inf false ∧
    parseInt (String.mk ('-' :: List.replicate 400 '9')) = JSNum.inf true := by
  decide

theorem roundInt_examples :
    roundInt 1700000000001 = 1700000000001 ∧ roundInt (-7) = -7 ∧
    roundInt 9007199254740993 = 9007199254740992 ∧
    roundInt (-9007199254740995) = -9007199254740996 ∧
    (jsonParse "[\x7b\"id\": 9007199254740993\x7d]".data).map (List.map Entry.id)
      = some [9007199254740992] := by
  decide

/-- A delete of the id `9007199254740993` finds the entry whose id is
`9007199254740992`: both are the same double -/
theorem deleteMovie_rounds_id :
    (deleteMovie demoCfg (demoWorld [movieEntry 9007199254740992 "" ""] [] true)
      "9007199254740993").response.status = 200 ∧
    (deleteMovie demoCfg (demoWorld [movieEntry 9007199254740993 "" ""] [] true)
      "9007199254740992").response.status = 200 := by
  decide

theorem pathJoin_examples :
    (pathJoin ["srv", "app"] "/uploads/images/a.jpg").render = "/srv/app/uploads/images/a.jpg" ∧
    (pathJoin ["srv", "app"] "/uploads/../data/movies.json").render
      = "/srv/app/data/movies.json" ∧
    (pathJoin ["srv", "app"] "/uploads//./x/").render = "/srv/app/uploads/x/" ∧
    (pathJoin ["srv"] "../../..").render = "/" := by
  decide

theorem split_examples :
    split "episode_12" '_' = ["episode", "12"] ∧ split "episode_" '_' = ["episode", ""] ∧
    split "episode_1_2" '_' = ["episode", "1", "2"] ∧ split "" '_' = [""] := by
  decide

theorem uniqueName_example :
    uniqueName 1700000000000 42 "My Film.final.mp4" = "1700000000000-42.mp4" ∧
    uniqueName 1700000000000 0 "noext" = "1700000000000-0" := by
  decide

theorem jsonStringify_example :
    String.mk (jsonStringify [movieEntry 1 "" "/uploads/movies/1-2.mp4", showEntry]) =
      "[\n  \x7b\n    \"id\": 1,\n    \"title\": \"Film\",\n    \"category\": \"Drama\",\n    \"type\": \"movie\",\n    \"image\": \"\",\n    \"videoUrl\": \"/uploads/movies/1-2.mp4\"\n  \x7d,\n  \x7b\n    \"id\": 1700000000002,\n    \"title\": \"Show\",\n    \"category\": \"Drama\",\n    \"type\": \"series\",\n    \"image\": \"\",\n    \"episodes\": [\n      \x7b\n        \"number\": 1,\n        \"url\": \"/uploads/movies/1-1.mp4\",\n        \"title\": \"1\"\n      \x7d,\n      \x7b\n        \"number\": 2,\n        \"url\": \"/uploads/movies/2-2.mp4\",\n        \"title\": \"2\"\n      \x7d\n    ]\n  \x7d\n]" ∧
    jsonParse "[\x7b\"id\": 3, \"title\": \"a\\u0041\\n\"\x7d]".data
      = some [{ id := 3, title := some "aA\n", category := none, type := none, image := none,
                videoUrl := none, episodes := none }] ∧
    jsonParse "[\x7b\"id\": 03\x7d]".data = none ∧ jsonParse "[\x7b\"id\": 3\x7d".data = none := by
  decide

end MovieSite
